import Mathlib

/-!
Verification development for the mhtml2html converter (src/mhtml2html.js).

The JavaScript source is shallowly embedded: JS strings become Lean `String`
(operated on through `List Char`), JS objects used as ordered string maps
become association lists (JS objects preserve insertion order for string
keys, and assigning to an existing key keeps its position), and fallible
operations (JS `throw`) return `Except String`.  Loops whose termination is
not structural take an explicit fuel argument; theorems quantify over fuel.
-/

namespace Mhtml

/-- The character class of the JS regex `\s`, of `String.prototype.trim`, and
of `ToNumber` whitespace trimming (ASCII part plus NBSP and BOM, the only
non-ASCII members that can occur in this code's inputs). -/
def isJsSpace (c : Char) : Bool :=
  c = ' ' || c = '\t' || c = '\n' || c = '\r' || c = '\x0b' || c = '\x0c' ||
  c = ' ' || c = '﻿'

/-- `String.prototype.trim` on a character list. -/
def jsTrimL (l : List Char) : List Char :=
  ((l.dropWhile isJsSpace).reverse.dropWhile isJsSpace).reverse

/-- `String.prototype.trim`. -/
def jsTrim (s : String) : String := ⟨jsTrimL s.data⟩

/-- First occurrence of `pat` in `l` at offset ≥ 0 (`String.prototype.indexOf`
restricted to a suffix; `none` models the JS return value `-1`). -/
def idxAux (pat : List Char) : List Char → Nat → Option Nat
  | l, pos =>
    if pat.isPrefixOf l then some pos
    else match l with
      | [] => none
      | _ :: t => idxAux pat t (pos + 1)

/-- `s.indexOf(pat, start)` (JS), with `none` for `-1`. -/
def jsIndexOfFrom (s pat : List Char) (start : Nat) : Option Nat :=
  (idxAux pat (s.drop start) 0).map (· + min start s.length)

/-- `String.prototype.includes`. -/
def jsIncludes (s pat : List Char) : Bool := (jsIndexOfFrom s pat 0).isSome

/-- `String.prototype.includes` on `String`. -/
def jsIncludesS (s pat : String) : Bool := jsIncludes s.data pat.data

/-- `s.substring(a, b)` (JS): negative arguments clamp to 0, arguments above
the length clamp to the length, and the endpoints are swapped when `a > b`. -/
def jsSubstring (s : List Char) (a b : Int) : List Char :=
  let n : Int := s.length
  let a' := (min (max a 0) n).toNat
  let b' := (min (max b 0) n).toNat
  let lo := min a' b'
  let hi := max a' b'
  (s.drop lo).take (hi - lo)

/-- `String.prototype.split` with a one-character separator (keeps empty
segments, as JS does). -/
def jsSplitChar (s : List Char) (sep : Char) : List (List Char) :=
  match s with
  | [] => [[]]
  | c :: t =>
    let r := jsSplitChar t sep
    if c = sep then [] :: r
    else match r with
      | [] => [[c]]
      | h :: t' => (c :: h) :: t'

/-- `String.prototype.split` with a non-empty string separator; `fuel` bounds
the scan (callers pass the string length). -/
def jsSplitStrAux (fuel : Nat) (s pat : List Char) : List (List Char) :=
  match fuel with
  | 0 => [s]
  | fuel + 1 =>
    match jsIndexOfFrom s pat 0 with
    | none => [s]
    | some i => s.take i :: jsSplitStrAux fuel (s.drop (i + pat.length)) pat

/-- `s.split(pat)` for a non-empty `pat`. -/
def jsSplitStr (s pat : List Char) : List (List Char) :=
  jsSplitStrAux (s.length + 1) s pat

def isHexDigit (c : Char) : Bool :=
  ('0' ≤ c && c ≤ '9') || ('a' ≤ c && c ≤ 'f') || ('A' ≤ c && c ≤ 'F')

def hexVal (c : Char) : Nat :=
  if '0' ≤ c && c ≤ '9' then c.toNat - '0'.toNat
  else if 'a' ≤ c && c ≤ 'f' then c.toNat - 'a'.toNat + 10
  else if 'A' ≤ c && c ≤ 'F' then c.toNat - 'A'.toNat + 10
  else 0

def hexDigitU (n : Nat) : Char :=
  if n < 10 then Char.ofNat ('0'.toNat + n) else Char.ofNat ('A'.toNat + n - 10)

/-- Two-digit uppercase hex of a byte. -/
def hex2 (n : Nat) : List Char := [hexDigitU (n / 16 % 16), hexDigitU (n % 16)]

/-- Four-digit uppercase hex. -/
def hex4 (n : Nat) : List Char :=
  [hexDigitU (n / 4096 % 16), hexDigitU (n / 256 % 16),
   hexDigitU (n / 16 % 16), hexDigitU (n % 16)]

/-- Characters the legacy JS `escape` function leaves unencoded. -/
def escapeKeeps (c : Char) : Bool :=
  ('A' ≤ c && c ≤ 'Z') || ('a' ≤ c && c ≤ 'z') || ('0' ≤ c && c ≤ '9') ||
  c = '@' || c = '*' || c = '_' || c = '+' || c = '-' || c = '.' || c = '/'

/-- The legacy JS global `escape` function. -/
def jsEscapeL (l : List Char) : List Char :=
  l.flatMap fun c =>
    if escapeKeeps c then [c]
    else if c.toNat < 256 then '%' :: hex2 c.toNat
    else '%' :: 'u' :: hex4 c.toNat

def jsEscape (s : String) : String := ⟨jsEscapeL s.data⟩

/-- Strict UTF-8 decoding of a byte list (the byte-sequence semantics of
`decodeURIComponent` on percent-encoded bytes: overlong forms, surrogates and
values above U+10FFFF are rejected). -/
def utf8Decode : List Nat → Option (List Char)
  | [] => some []
  | b :: rest =>
    if b < 0x80 then (utf8Decode rest).map (Char.ofNat b :: ·)
    else if 0xC2 ≤ b && b ≤ 0xDF then
      match rest with
      | c1 :: rest' =>
        if 0x80 ≤ c1 && c1 ≤ 0xBF then
          (utf8Decode rest').map (Char.ofNat ((b - 0xC0) * 64 + (c1 - 0x80)) :: ·)
        else none
      | [] => none
    else if 0xE0 ≤ b && b ≤ 0xEF then
      match rest with
      | c1 :: c2 :: rest' =>
        let lo1 := if b = 0xE0 then 0xA0 else 0x80
        let hi1 := if b = 0xED then 0x9F else 0xBF
        if lo1 ≤ c1 && c1 ≤ hi1 && 0x80 ≤ c2 && c2 ≤ 0xBF then
          (utf8Decode rest').map
            (Char.ofNat ((b - 0xE0) * 4096 + (c1 - 0x80) * 64 + (c2 - 0x80)) :: ·)
        else none
      | _ => none
    else if 0xF0 ≤ b && b ≤ 0xF4 then
      match rest with
      | c1 :: c2 :: c3 :: rest' =>
        let lo1 := if b = 0xF0 then 0x90 else 0x80
        let hi1 := if b = 0xF4 then 0x8F else 0xBF
        if lo1 ≤ c1 && c1 ≤ hi1 && 0x80 ≤ c2 && c2 ≤ 0xBF && 0x80 ≤ c3 && c3 ≤ 0xBF then
          (utf8Decode rest').map
            (Char.ofNat ((b - 0xF0) * 262144 + (c1 - 0x80) * 4096 +
              (c2 - 0x80) * 64 + (c3 - 0x80)) :: ·)
        else none
      | _ => none
    else none

/-- `decodeURIComponent(escape(s))` wrapped in the parser's `try`/`catch`:
on any throw the original string is kept (`parse`, line 414). A character
above U+00FF makes `escape` emit `%uXXXX`, which `decodeURIComponent`
rejects; otherwise the char codes are decoded as UTF-8 bytes. -/
def unicodeNormalizeJs (s : String) : String :=
  if s.data.all (fun c => c.toNat < 256) then
    match utf8Decode (s.data.map Char.toNat) with
    | some t => ⟨t⟩
    | none => s
  else s

/-! ## The `base-64` npm dependency

`Base64.encode` throws when its input has a character above U+00FF;
`Base64.decode` strips the characters of `/[\t\n\f\r ]/`, strips one trailing
`=` or `==` when the remaining length is a multiple of four, and then throws
if the length is ≡ 1 (mod 4) or any character is outside the base64
alphabet. -/

def b64Alphabet : List Char :=
  "ABCDEFGHIJKLMNOPQRSTUVWXYZabcdefghijklmnopqrstuvwxyz0123456789+/".data

def b64Char (n : Nat) : Char := b64Alphabet.getD n '?'

/-- Index of a character in the base64 alphabet. -/
def b64Val (c : Char) : Nat :=
  if 'A' ≤ c && c ≤ 'Z' then c.toNat - 'A'.toNat
  else if 'a' ≤ c && c ≤ 'z' then c.toNat - 'a'.toNat + 26
  else if '0' ≤ c && c ≤ '9' then c.toNat - '0'.toNat + 52
  else if c = '+' then 62
  else 63

def b64EncodeChunks : List Nat → List Char
  | [] => []
  | [a] => [b64Char (a / 4), b64Char (a % 4 * 16), '=', '=']
  | [a, b] => [b64Char (a / 4), b64Char (a % 4 * 16 + b / 16), b64Char (b % 16 * 4), '=']
  | a :: b :: c :: rest =>
    b64Char (a / 4) :: b64Char (a % 4 * 16 + b / 16) ::
    b64Char (b % 16 * 4 + c / 64) :: b64Char (c % 64) :: b64EncodeChunks rest

/-- `Base64.encode` of the `base-64` package. -/
def b64Encode (s : String) : Except String String :=
  if s.data.all (fun c => c.toNat < 256) then
    .ok ⟨b64EncodeChunks (s.data.map Char.toNat)⟩
  else
    .error "The string to be encoded contains characters outside of the Latin1 range."

def b64IsSpace (c : Char) : Bool :=
  c = '\t' || c = '\n' || c = '\x0c' || c = '\r' || c = ' '

/-- One application of `replace(/==?$/, '')`. -/
def b64StripPad (l : List Char) : List Char :=
  match l.reverse with
  | '=' :: '=' :: t => t.reverse
  | '=' :: t => t.reverse
  | _ => l

def b64DecodeChunks : List Char → List Char
  | [] => []
  | [_] => []
  | [a, b] => [Char.ofNat ((b64Val a * 4 + b64Val b / 16) % 256)]
  | [a, b, c] =>
    [Char.ofNat ((b64Val a * 4 + b64Val b / 16) % 256),
     Char.ofNat ((b64Val b % 16 * 16 + b64Val c / 4) % 256)]
  | a :: b :: c :: d :: rest =>
    Char.ofNat ((b64Val a * 4 + b64Val b / 16) % 256) ::
    Char.ofNat ((b64Val b % 16 * 16 + b64Val c / 4) % 256) ::
    Char.ofNat ((b64Val c % 4 * 64 + b64Val d) % 256) :: b64DecodeChunks rest

/-- The whitespace-stripping and padding-stripping phase of
`Base64.decode`. -/
def b64Clean (s : String) : List Char :=
  b64CleanPad (s.data.filter (fun c => !b64IsSpace c))
where
  b64CleanPad (s1 : List Char) : List Char :=
    if s1.length % 4 = 0 then b64StripPad s1 else s1

/-- `Base64.decode` of the `base-64` package. -/
def b64Decode (s : String) : Except String String :=
  if (b64Clean s).length % 4 = 1 ||
      (b64Clean s).any (fun c => !(b64Alphabet.contains c)) then
    .error "Invalid character: the string to be decoded is not correctly encoded."
  else
    .ok ⟨b64DecodeChunks (b64Clean s)⟩

/-! ## The `quoted-printable` npm dependency

`QuotedPrintable.decode` is three sequential global regex replacements:
`/[\t\x20]$/gm` (drop one trailing tab/space per line), `/=(?:\r\n?|\n|$)/g`
(drop soft line breaks), and `/=([a-fA-F\d]{2})/g` (decode hex escapes).
It never throws. -/

/-- An ECMAScript LineTerminator, before which the `$` of a multiline regex
matches: LF, CR, LINE SEPARATOR or PARAGRAPH SEPARATOR. -/
def isJsLineTerm (c : Char) : Bool :=
  c = '\n' || c = '\r' || c = '\u2028' || c = '\u2029'

/-- Pass 1: drop a single tab/space standing immediately before a line
terminator or at the end of the string (a multiline `$` matches before
every LineTerminator — `\n`, `\r`, U+2028, U+2029 — and at the end, so a
space before `\r\n` is stripped too). -/
def qpPass1 : List Char → List Char
  | [] => []
  | [c] => if c = '\t' || c = ' ' then [] else [c]
  | c :: d :: rest =>
    if (c = '\t' || c = ' ') && isJsLineTerm d then d :: qpPass1 rest
    else c :: qpPass1 (d :: rest)

/-- Pass 2: remove `=\r\n`, `=\r`, `=\n`, and a final `=`. -/
def qpPass2 : List Char → List Char
  | [] => []
  | '=' :: '\r' :: '\n' :: rest => qpPass2 rest
  | '=' :: '\r' :: rest => qpPass2 rest
  | '=' :: '\n' :: rest => qpPass2 rest
  | ['='] => []
  | c :: rest => c :: qpPass2 rest

/-- Pass 3: decode `=HH`. -/
def qpPass3 : List Char → List Char
  | '=' :: a :: b :: rest =>
    if isHexDigit a && isHexDigit b then
      Char.ofNat (hexVal a * 16 + hexVal b) :: qpPass3 rest
    else '=' :: qpPass3 (a :: b :: rest)
  | c :: rest => c :: qpPass3 rest
  | [] => []

/-- `QuotedPrintable.decode`. -/
def qpDecode (s : String) : String := ⟨qpPass3 (qpPass2 (qpPass1 s.data))⟩

/-! ## JS `ToNumber` zero test

The parser decides "blank line" with `next != 0 && next != '\n'`; the loose
comparison of a string against the number 0 holds exactly when `ToNumber`
of the string is 0: the string is whitespace-only, or a numeric literal
(optionally signed decimal, or an unsigned 0x/0o/0b literal) of value 0. -/

def expTailZero (r : List Char) : Bool :=
  let r' := match r with
    | '+' :: t => t
    | '-' :: t => t
    | _ => r
  decide (r' ≠ []) && r'.all Char.isDigit

/-- Does `l` match the decimal-literal grammar with value 0
(`digits? [. digits?] [(e|E) sign? digits]`, at least one mantissa digit,
all mantissa digits `0`)? -/
def decZeroNum (l : List Char) : Bool :=
  let ip := l.takeWhile Char.isDigit
  let r1 := l.dropWhile Char.isDigit
  let fp := match r1 with
    | '.' :: r => r.takeWhile Char.isDigit
    | _ => []
  let r2 := match r1 with
    | '.' :: r => r.dropWhile Char.isDigit
    | _ => r1
  let mant := ip ++ fp
  let expOk := match r2 with
    | [] => true
    | 'e' :: r3 => expTailZero r3
    | 'E' :: r3 => expTailZero r3
    | _ => false
  decide (mant ≠ []) && mant.all (· = '0') && expOk

/-- Unsigned radix literal (`0x`/`0o`/`0b`) of value 0. -/
def radixZeroNum (l : List Char) : Bool :=
  match l with
  | '0' :: x :: ds =>
    if x = 'x' || x = 'X' then decide (ds ≠ []) && ds.all isHexDigit && ds.all (· = '0')
    else if x = 'o' || x = 'O' then
      decide (ds ≠ []) && ds.all (fun c => '0' ≤ c && c ≤ '7') && ds.all (· = '0')
    else if x = 'b' || x = 'B' then
      decide (ds ≠ []) && ds.all (fun c => c = '0' || c = '1') && ds.all (· = '0')
    else false
  | _ => false

/-- Is the JS loose comparison `s == 0` true for the string `s`? -/
def jsEqNumZero (s : String) : Bool :=
  let t := jsTrimL s.data
  match t with
  | [] => true
  | '+' :: r => decZeroNum r
  | '-' :: r => decZeroNum r
  | _ => decZeroNum t || radixZeroNum t

/-! ## MHTML parser (`mhtml2html.parse`)

The FSM of `parse` (states `MHTML_HEADERS`, `MTHML_CONTENT`, `MHTML_DATA`,
`MHTML_END`). The index `i` into the input string is modelled by the list of
remaining characters; `i < mhtml.length - 1` is `2 ≤ remaining.length`. The
line counter `l` only feeds the text of error messages and is dropped (the
modelled messages omit the `; Line l` suffix). -/

/-- A parsed part's record, `asset = { encoding, type, data, id }`
(`parse`, line 378).  `encoding` and `type` are asserted present before the
record is built; `id` may be absent. -/
structure Asset where
  encoding : String
  type : String
  data : String
  id : Option String
deriving Repr, DecidableEq

/-- The value `parse` returns when `htmlOnly` is unset: `{ frames, media,
index }`.  JS objects with string keys preserve insertion order and keep a
key's position when its value is overwritten, so both tables are modelled by
association lists. -/
structure Archive where
  frames : List (String × Asset)
  media : List (String × Asset)
  index : String
deriving Repr, DecidableEq

/-- `parse` returns either an archive or, under `htmlOnly`, whatever the
injected DOM provider returns. -/
inductive ParseResult (δ : Type u) where
  | archive (a : Archive)
  | dom (d : δ)
deriving Repr

/-- Association-list lookup (first binding wins, like a JS property read). -/
def lookupA (m : List (String × α)) (k : String) : Option α :=
  match m with
  | [] => none
  | (k', v) :: t => if k' = k then some v else lookupA t k

/-- JS property write: overwrite in place if the key exists (keeping its
position), otherwise append. -/
def upsertA (m : List (String × α)) (k : String) (v : α) : List (String × α) :=
  match m with
  | [] => [(k, v)]
  | (k', v') :: t => if k' = k then (k, v) :: t else (k', v') :: upsertA t k v

/-- The parser's `getLine` before decoding: consume characters up to and
including the next `\n`.  A non-`\n` character in the last position (or
running out of input) fails the `i++ < mhtml.length - 1` assertion
(`Unexpected EOF`). -/
def getLineRaw : List Char → Except String (List Char × List Char)
  | [] => .error "Unexpected EOF"
  | '\n' :: rest => .ok (['\n'], rest)
  | c :: rest =>
    if rest.isEmpty then .error "Unexpected EOF"
    else (getLineRaw rest).map (fun p => (c :: p.1, p.2))

/-- The per-encoding decode step of `getLine`: quoted-printable lines are
decoded, base64 lines trimmed, anything else (including the no-argument
calls from the header states) returned verbatim. -/
def decodeLine (enc : Option String) (line : String) : String :=
  match enc with
  | some e =>
    if e = "quoted-printable" then qpDecode line
    else if e = "base64" then jsTrim line
    else line
  | none => line

/-- The parser's `trim()`: discard whitespace; the assertion
`i < mhtml.length - 1` is checked before every character, so reaching the
last character (even a non-space one) throws `Unexpected EOF`. -/
def trimWS : List Char → Except String (List Char)
  | [] => .error "Unexpected EOF"
  | [_] => .error "Unexpected EOF"
  | c :: rest => if isJsSpace c then trimWS rest else .ok (c :: rest)

/-- `splitHeaders(line, obj)`: split at the first `:`; a line with no colon
continues the most recently set key (`key` persists across header blocks; a
continuation for a key not present in this block reads the JS `undefined`
and concatenates onto the string `"undefined"`). -/
def splitHeadersJs (line : String) (obj : List (String × String))
    (key : Option String) : Except String (List (String × String) × Option String) :=
  match jsIndexOfFrom line.data [':'] 0 with
  | some m =>
    let k := jsTrim ⟨line.data.take m⟩
    let v := jsTrim ⟨line.data.drop (m + 1)⟩
    .ok (upsertA obj k v, some k)
  | none =>
    match key with
    | none => .error "Missing MHTML headers"
    | some k =>
      let old := (lookupA obj k).getD "undefined"
      .ok (upsertA obj k (old ++ jsTrim line), some k)

/-- Is this line handled as a header line (`next != 0 && next != '\n'`)? -/
def isHeaderLine (s : String) : Bool := !jsEqNumZero s && s ≠ "\n"

/-- A header block: read raw lines into `obj` until a blank line; returns the
accumulated object, the persisting `key`, and the remaining input. -/
def headerBlock (fuel : Nat) (chars : List Char) (obj : List (String × String))
    (key : Option String) :
    Except String (List (String × String) × Option String × List Char) :=
  match fuel with
  | 0 => .error "Out of fuel"
  | fuel + 1 => do
    let (l, rest) ← getLineRaw chars
    let line : String := ⟨l⟩
    if isHeaderLine line then do
      let (obj', key') ← splitHeadersJs line obj key
      headerBlock fuel rest obj' key'
    else
      .ok (obj, key, rest)

/-- The `MHTML_DATA` loop: read decoded lines, appending them to the body,
until a line whose decoded form contains the boundary.  The boundary line is
consumed but not appended. -/
def dataLoop (fuel : Nat) (chars : List Char) (boundary : String) (enc : String)
    (acc : String) : Except String (String × List Char) :=
  match fuel with
  | 0 => .error "Out of fuel"
  | fuel + 1 => do
    let (l, rest) ← getLineRaw chars
    let dl := decodeLine (some enc) ⟨l⟩
    if jsIncludesS dl boundary then .ok (acc, rest)
    else dataLoop fuel rest boundary enc (acc ++ dl)

/-- One part, recorded for specification purposes: its `Content-Location`
and `Content-ID` headers and the finished asset. -/
structure Part where
  location : Option String
  id : Option String
  asset : Asset
deriving Repr, DecidableEq

/-- Everything one pass through `MTHML_CONTENT` + `MHTML_DATA` produces. -/
structure PartRes where
  media : List (String × Asset)
  frames : List (String × Asset)
  index : String
  key : Option String
  part : Part
  rest : List Char
deriving Repr

/-- The extraction-and-assertion phase of `MTHML_CONTENT` (lines 361-376):
read `Content-Transfer-Encoding`, `Content-Type`, `Content-ID` and
`Content-Location` out of the header object, establish the index on the
first part (asserting a location and `text/html`), and run the
ID-or-location, encoding and type assertions in source order.  Returns the
index and the four content properties. -/
def extractPartHead (content : List (String × String)) (index : Option String) :
    Except String (String × Option String × Option String × String × String) := do
  let encoding := lookupA content "Content-Transfer-Encoding"
  let type := lookupA content "Content-Type"
  let id := lookupA content "Content-ID"
  let location := lookupA content "Content-Location"
  let idxStr : String ←
    match index with
    | some s => .ok s
    | none =>
      match location, type with
      | some L, some t => if t = "text/html" then .ok L else .error "Index not found"
      | _, _ => .error "Index not found"
  if id.isNone && location.isNone then
    .error "ID or location header not provided"
  else match encoding, type with
  | some enc, some ty => .ok (idxStr, id, location, enc, ty)
  | none, _ => .error "Content-Transfer-Encoding not provided"
  | _, none => .error "Content-Type not provided"

/-- One part: read the content header block, run its assertions, register
the asset in `frames`/`media`, consume whitespace, run the data loop, apply
the unicode-normalisation pass, and write the finished data back through the
shared `asset` object (the JS tables alias the mutable `asset`, so entries
registered for this part observe the final `data`; an entry belonging to an
earlier part is never touched). -/
def readPart (fuel : Nat) (chars : List Char) (boundary : String)
    (media frames : List (String × Asset)) (index : Option String)
    (key : Option String) : Except String PartRes := do
  let (content, key', rest) ← headerBlock fuel chars [] key
  let (idxStr, id, location, enc, ty) ← extractPartHead content index
  let asset0 : Asset := ⟨enc, ty, "", id⟩
  let frames1 := match id with
    | some i => upsertA frames i asset0
    | none => frames
  let registered := match location with
    | some L => (lookupA media L).isNone
    | none => false
  let media1 := match location with
    | some L => if (lookupA media L).isNone then media ++ [(L, asset0)] else media
    | none => media
  let rest2 ← trimWS rest
  let (dataRaw, rest3) ← dataLoop fuel rest2 boundary enc ""
  let asset1 : Asset := { asset0 with data := unicodeNormalizeJs dataRaw }
  let media2 := match location with
    | some L => if registered then upsertA media1 L asset1 else media1
    | none => media1
  let frames2 := match id with
    | some i => upsertA frames1 i asset1
    | none => frames1
  .ok ⟨media2, frames2, idxStr, key', ⟨location, id, asset1⟩, rest3⟩

/-- The part loop: parts until end of input (`i >= mhtml.length - 1`, i.e. at
most one character left).  Under `htmlOnly` the first finished body (the
index is defined from the first part on) is handed to the DOM provider. -/
def partLoop (fuel : Nat) (chars : List Char) (boundary : String)
    (media frames : List (String × Asset)) (index : Option String)
    (key : Option String) (htmlOnly : Bool) (pd : String → δ) :
    Except String (ParseResult δ) :=
  match fuel with
  | 0 => .error "Out of fuel"
  | fuel + 1 => do
    let r ← readPart fuel chars boundary media frames index key
    if htmlOnly then .ok (.dom (pd r.part.asset.data))
    else if r.rest.length ≤ 1 then .ok (.archive ⟨r.frames, r.media, r.index⟩)
    else partLoop fuel r.rest boundary r.media r.frames (some r.index) r.key htmlOnly pd

/-- Instrumented part loop: identical control flow, additionally recording
the finished parts in order.  Used to state which part a table entry came
from. -/
def partLoopP (fuel : Nat) (chars : List Char) (boundary : String)
    (media frames : List (String × Asset)) (index : Option String)
    (key : Option String) (htmlOnly : Bool) (pd : String → δ)
    (ps : List Part) : Except String (ParseResult δ × List Part) :=
  match fuel with
  | 0 => .error "Out of fuel"
  | fuel + 1 => do
    let r ← readPart fuel chars boundary media frames index key
    if htmlOnly then .ok (.dom (pd r.part.asset.data), ps ++ [r.part])
    else if r.rest.length ≤ 1 then
      .ok (.archive ⟨r.frames, r.media, r.index⟩, ps ++ [r.part])
    else
      partLoopP fuel r.rest boundary r.media r.frames (some r.index) r.key htmlOnly
        pd (ps ++ [r.part])

/-- The document-header phase: read the top header block, require a
`Content-Type` with a `boundary=` parameter (the regex `/boundary=(.*)/m`
captures the rest of the line after the first `boundary=`; double quotes are
then stripped), consume whitespace, and require the first boundary line. -/
def parseTop (mhtml : String) (htmlOnly : Bool) (pd : String → δ) (fuel : Nat) :
    Except String (ParseResult δ) := do
  let (headers, key, rest) ← headerBlock fuel mhtml.data [] none
  match lookupA headers "Content-Type" with
  | none => .error "Missing document content type"
  | some ct =>
    match jsIndexOfFrom ct.data "boundary=".data 0 with
    | none => .error "Missing boundary from document headers"
    | some bi =>
      let boundary : String :=
        ⟨((ct.data.drop (bi + 9)).takeWhile (· ≠ '\n')).filter (· ≠ '"')⟩
      let rest2 ← trimWS rest
      let (l2, rest3) ← getLineRaw rest2
      if jsIncludesS ⟨l2⟩ boundary then
        partLoop fuel rest3 boundary [] [] none key htmlOnly pd
      else .error "Expected boundary"

/-- `mhtml2html.parse`.  `fuel` bounds the number of loop iterations; every
iteration consumes input, so any sufficiently large fuel (theorems quantify
over it) reproduces the JS behaviour. -/
def parse (mhtml : String) (htmlOnly : Bool) (pd : String → δ) (fuel : Nat) :
    Except String (ParseResult δ) :=
  parseTop mhtml htmlOnly pd fuel

/-- Instrumented `parse`, also returning the ordered list of parsed parts. -/
def parseParts (mhtml : String) (htmlOnly : Bool) (pd : String → δ) (fuel : Nat) :
    Except String (ParseResult δ × List Part) := do
  let (headers, key, rest) ← headerBlock fuel mhtml.data [] none
  match lookupA headers "Content-Type" with
  | none => .error "Missing document content type"
  | some ct =>
    match jsIndexOfFrom ct.data "boundary=".data 0 with
    | none => .error "Missing boundary from document headers"
    | some bi =>
      let boundary : String :=
        ⟨((ct.data.drop (bi + 9)).takeWhile (· ≠ '\n')).filter (· ≠ '"')⟩
      let rest2 ← trimWS rest
      let (l2, rest3) ← getLineRaw rest2
      if jsIncludesS ⟨l2⟩ boundary then
        partLoopP fuel rest3 boundary [] [] none key htmlOnly pd []
      else .error "Expected boundary"

/-! ## URL resolution -/

/-- `absoluteURL(base, relative)`: return an absolute reference unchanged;
otherwise split both on `/`, pop the last segment of the base, fold the
relative segments (`.` skipped, `..` pops), and rejoin. -/
def absoluteURL (base relative : String) : String :=
  if "http://".data.isPrefixOf relative.data ||
      "https://".data.isPrefixOf relative.data then relative
  else
    let stack0 := (jsSplitChar base.data '/').dropLast
    let parts := jsSplitChar relative.data '/'
    let stack := parts.foldl
      (fun st p =>
        if p = ['.'] then st
        else if p = ['.', '.'] then st.dropLast
        else st ++ [p]) stack0
    ⟨(stack.map (List.asString)).intersperse "/" |>.foldl (· ++ ·.data) [] |>.map id⟩

/-- Scheme characters of a URL (`ALPHA *( ALPHA / DIGIT / "+" / "-" / "." )`). -/
def isSchemeChar (c : Char) : Bool :=
  c.isAlpha || c.isDigit || c = '+' || c = '-' || c = '.'

/-- `new URL(base).origin` under `try`/`catch` (`none` models the throw for
strings that do not parse as a URL).  For the special schemes `http`,
`https`, `ws`, `wss` the origin is `scheme://host[:port]` with the host
lowercased and the scheme's default port elided; other parseable schemes
have an opaque origin, which stringifies to `"null"`. -/
def getOrigin (base : String) : Option String :=
  match base.data with
  | [] => none
  | c :: rest =>
    if !c.isAlpha then none
    else
      let schemeChars := c :: rest.takeWhile isSchemeChar
      let afterScheme := rest.dropWhile isSchemeChar
      match afterScheme with
      | ':' :: r =>
        let scheme : String := ⟨schemeChars.map Char.toLower⟩
        if scheme = "http" || scheme = "https" || scheme = "ws" || scheme = "wss" then
          let r1 := if ['/', '/'].isPrefixOf r then r.drop 2 else r
          let authority := r1.takeWhile (fun d => d ≠ '/' && d ≠ '?' && d ≠ '#')
          let hostport :=
            match (jsSplitChar authority '@').getLast? with
            | some h => h
            | none => authority
          if hostport = [] then none
          else
            let defPort : List Char :=
              if scheme = "http" || scheme = "ws" then ":80".data else ":443".data
            let hp := if defPort.isSuffixOf hostport then
                hostport.take (hostport.length - defPort.length)
              else hostport
            some (scheme ++ "://" ++ ⟨hp.map Char.toLower⟩)
        else some "null"
      | _ => none

/-- `reference.replace(/(\"|\')/g, '')`: every single or double quote in the
reference is removed, not only surrounding ones. -/
def stripQuotes (r : String) : String :=
  ⟨r.data.filter (fun c => c ≠ '"' && c ≠ '\'')⟩

/-- `findAsset(media, base, reference)`: strip quotes, then try (1) the
cleaned reference verbatim, (2) the relative join against `base`, (3) for a
reference starting with `/`, the origin of `base` concatenated with the
reference, (4) a filename-tail scan over the media keys in insertion order,
applied when the last `/`-segment has more than three characters.  `none`
models the JS `null`. -/
def findAsset (media : List (String × Asset)) (base reference : String) :
    Option (String × Asset) :=
  let cleanRef := stripQuotes reference
  match lookupA media cleanRef with
  | some e => some (cleanRef, e)
  | none =>
    let absolutePath := absoluteURL base cleanRef
    match lookupA media absolutePath with
    | some e => some (absolutePath, e)
    | none =>
      let rootHit : Option (String × Asset) :=
        if cleanRef.data.head? = some '/' then
          match getOrigin base with
          | some o =>
            let fullUrl := o ++ cleanRef
            (lookupA media fullUrl).map (fullUrl, ·)
          | none => none
        else none
      match rootHit with
      | some h => some h
      | none =>
        let filename : String := ⟨((jsSplitChar cleanRef.data '/').getLast?).getD []⟩
        if filename ≠ "" && filename.length > 3 then
          (media.find? (fun kv =>
            ("/" ++ filename).data.isSuffixOf kv.1.data ||
            filename.data.isSuffixOf kv.1.data)).map
            (fun kv => (kv.1, kv.2))
        else none

/-! ## Data-URI conversion and the CSS rewriter -/

/-- `convertAssetToDataURI(asset)`: quoted-printable data is decoded and
escaped into a `utf8,` data URI; base64 data is emitted verbatim; anything
else is base64-encoded (which throws for data outside Latin1). -/
def convertAssetToDataURI (asset : Asset) : Except String String :=
  if asset.encoding = "quoted-printable" then
    .ok ("data:" ++ asset.type ++ ";utf8," ++ jsEscape (qpDecode asset.data))
  else if asset.encoding = "base64" then
    .ok ("data:" ++ asset.type ++ ";base64," ++ asset.data)
  else
    (b64Encode asset.data).map (fun b => "data:" ++ asset.type ++ ";base64," ++ b)

mutual

/-- `processCSS(media, path)`: `null` (here `none`) when the entry is absent
or not `text/css`; otherwise the data is base64-decoded if needed (the
decode throw is not caught) and run through `replaceReferences` with the
entry's own path as base. -/
def processCSS (fuel : Nat) (media : List (String × Asset)) (path : String) :
    Except String (Option String) :=
  match fuel with
  | 0 => .error "Loop limit"
  | fuel + 1 =>
    match lookupA media path with
    | none => .ok none
    | some entry =>
      if entry.type ≠ "text/css" then .ok none
      else do
        let decoded ← if entry.encoding = "base64" then b64Decode entry.data
          else .ok entry.data
        let r ← rrLoop fuel media path decoded 0
        .ok (some r)

/-- The loop of `replaceReferences`: `for (i = 0; (i = css.indexOf('url(',
i)) > 0; i += reference.length)`.  A match at offset 0 fails the `> 0` test
and ends the loop.  On a hit, nested CSS is processed recursively, other
data is base64-decoded if stored base64 (uncaught), and only the
`Base64.encode` of the replacement is inside the `try`/`catch`.  The next
search starts at the match position + 4 + the original reference's
length. -/
def rrLoop (fuel : Nat) (media : List (String × Asset)) (base : String)
    (css : String) (i : Nat) : Except String String :=
  match fuel with
  | 0 => .error "Loop limit"
  | fuel + 1 =>
    match jsIndexOfFrom css.data "url(".data i with
    | none => .ok css
    | some p =>
      if p = 0 then .ok css
      else
        let j := p + 4
        let closeIdx : Int := match jsIndexOfFrom css.data [')'] j with
          | some q => (q : Int)
          | none => -1
        let reference : String := ⟨jsSubstring css.data (j : Int) closeIdx⟩
        match findAsset media base reference with
        | none => rrLoop fuel media base css (j + reference.length)
        | some (path, entry) => do
          let assetData ←
            if entry.type = "text/css" then
              -- `Base64.encode(null)` would stringify `null`; the guarded
              -- lookup makes the `none` case unreachable here.
              (processCSS fuel media path).map (fun o => o.getD "null")
            else if entry.encoding = "base64" then b64Decode entry.data
            else .ok entry.data
          match b64Encode assetData with
          | .ok b =>
            let embedded := "'data:" ++ entry.type ++ ";base64," ++ b ++ "'"
            let css' : String :=
              ⟨css.data.take j ++ embedded.data ++ css.data.drop (j + reference.length)⟩
            rrLoop fuel media base css' (j + reference.length)
          | .error _ =>
            -- console.warn; the css is left unchanged for this reference
            rrLoop fuel media base css (j + reference.length)

end

/-- `replaceReferences(media, base, css)`. -/
def replaceReferences (fuel : Nat) (media : List (String × Asset))
    (base css : String) : Except String String :=
  rrLoop fuel media base css 0

/-! ## The DOM model and `mhtml2html.convert`

The DOM provider is an injected capability (`options.parseDOM`); `convert`
only needs a mutable element tree, modelled here by `Node`.  Tag names play
the role of `tagName` (uppercase for HTML elements under jsdom, but the
model quantifies over arbitrary trees as the capability does). -/

inductive Node where
  | elem (tag : String) (attrs : List (String × String)) (children : List Node)
  | text (s : String)
  | comment (s : String)
deriving Repr

def Node.isElem : Node → Bool
  | .elem _ _ _ => true
  | _ => false

def Node.isComment : Node → Bool
  | .comment _ => true
  | _ => false

/-- UTF-8 encoding of one character. -/
def utf8EncodeChar (c : Char) : List Nat :=
  let n := c.toNat
  if n < 0x80 then [n]
  else if n < 0x800 then [0xC0 + n / 64, 0x80 + n % 64]
  else if n < 0x10000 then [0xE0 + n / 4096, 0x80 + n / 64 % 64, 0x80 + n % 64]
  else [0xF0 + n / 262144, 0x80 + n / 4096 % 64, 0x80 + n / 64 % 64, 0x80 + n % 64]

def uriUnreserved (c : Char) : Bool :=
  ('A' ≤ c && c ≤ 'Z') || ('a' ≤ c && c ≤ 'z') || ('0' ≤ c && c ≤ '9') ||
  c = '-' || c = '_' || c = '.' || c = '!' || c = '~' || c = '*' ||
  c = '\'' || c = '(' || c = ')'

/-- `encodeURIComponent`. -/
def encodeURIComponentS (s : String) : String :=
  ⟨s.data.flatMap (fun c =>
    if uriUnreserved c then [c]
    else (utf8EncodeChar c).flatMap (fun b => '%' :: hex2 b))⟩

/-- HTML text-node escaping used by serialization. -/
def escapeHtmlText (s : String) : String :=
  ⟨s.data.flatMap (fun c =>
    if c = '&' then "&amp;".data
    else if c = '\u00A0' then "&nbsp;".data
    else if c = '<' then "&lt;".data
    else if c = '>' then "&gt;".data
    else [c])⟩

/-- HTML attribute-value escaping used by serialization. -/
def escapeHtmlAttr (s : String) : String :=
  ⟨s.data.flatMap (fun c =>
    if c = '&' then "&amp;".data
    else if c = '\u00A0' then "&nbsp;".data
    else if c = '"' then "&quot;".data
    else [c])⟩

def voidTags : List String :=
  ["area", "base", "br", "col", "embed", "hr", "img", "input", "link",
   "meta", "param", "source", "track", "wbr"]

def rawTextTags : List String :=
  ["style", "script", "xmp", "iframe", "noembed", "noframes", "plaintext",
   "noscript"]

mutual

/-- HTML serialization of one node (`outerHTML`).  `fuel` bounds the
recursion depth (JS serialization is bounded only by the stack); every
theorem quantifies over it and concrete uses pass a fuel larger than the
tree depth. -/
def serializeNode (fuel : Nat) : Node → String
  | .text s => escapeHtmlText s
  | .comment s => "<!--" ++ s ++ "-->"
  | .elem tag attrs children =>
    match fuel with
    | 0 => ""
    | fuel + 1 =>
      let t : String := ⟨tag.data.map Char.toLower⟩
      let attrStr := attrs.foldl
        (fun acc kv => acc ++ " " ++ kv.1 ++ "=\x22" ++ escapeHtmlAttr kv.2 ++ "\x22") ""
      if voidTags.contains t then "<" ++ t ++ attrStr ++ ">"
      else "<" ++ t ++ attrStr ++ ">" ++
        serializeList fuel (rawTextTags.contains t) children ++ "</" ++ t ++ ">"
termination_by structural fuel

/-- HTML serialization of a child list (`innerHTML`); text children of
raw-text elements are emitted unescaped. -/
def serializeList (fuel : Nat) (raw : Bool) : List Node → String
  | [] => ""
  | n :: t =>
    match fuel with
    | 0 => ""
    | fuel + 1 =>
      (match n with
       | .text s => if raw then s else escapeHtmlText s
       | n => serializeNode fuel n) ++ serializeList fuel raw t
termination_by structural fuel

end

/-- Case-insensitive literal prefix: drop `pat` from the head of `s`. -/
def ciPrefixDrop : List Char → List Char → Option (List Char)
  | [], s => some s
  | _ :: _, [] => none
  | p :: pt, c :: ct => if c.toLower = p.toLower then ciPrefixDrop pt ct else none

/-- `String.prototype.replace` with a global case-insensitive literal
pattern (used for the `shadowrootmode=` / `shadowmode=` renames). -/
def replaceCIAux (fuel : Nat) (s pat repl : List Char) : List Char :=
  match fuel with
  | 0 => s
  | fuel + 1 =>
    match s with
    | [] => []
    | c :: t =>
      match ciPrefixDrop pat s with
      | some rest => repl ++ replaceCIAux fuel rest pat repl
      | none => c :: replaceCIAux fuel t pat repl

def replaceCI (s pat repl : String) : String :=
  ⟨replaceCIAux (s.length + 1) s.data pat.data repl.data⟩

/-- Which characters the `.` of a non-`s`-flag JS regex matches. -/
def jsDotOk (c : Char) : Bool :=
  c ≠ '\n' && c ≠ '\r' && c ≠ ' ' && c ≠ ' '

/-- Minimal `.*?<\/slot>` (case-insensitive) from the current position. -/
def findSlotClose (fuel : Nat) (s : List Char) : Option (List Char) :=
  match fuel with
  | 0 => none
  | fuel + 1 =>
    match ciPrefixDrop "</slot>".data s with
    | some rest => some rest
    | none =>
      match s with
      | c :: t => if jsDotOk c then findSlotClose fuel t else none
      | [] => none

/-- Match `<slot[^>]*>.*?<\/slot>` (flags `gi`) at the current position,
returning the rest of the input after the match. -/
def matchSlotAt (s : List Char) : Option (List Char) :=
  match ciPrefixDrop "<slot".data s with
  | none => none
  | some r1 =>
    match r1.dropWhile (· ≠ '>') with
    | '>' :: r2 => findSlotClose (r2.length + 1) r2
    | _ => none

/-- `replace(/<slot[^>]*>.*?<\/slot>/gi, '')`. -/
def removeSlotsAux (fuel : Nat) (s : List Char) : List Char :=
  match fuel with
  | 0 => s
  | fuel + 1 =>
    match s with
    | [] => []
    | c :: t =>
      match matchSlotAt s with
      | some rest => removeSlotsAux fuel rest
      | none => c :: removeSlotsAux fuel t

/-- Minimal `[\s\S]*?-->` from the current position. -/
def findCommentClose (fuel : Nat) (s : List Char) : Option (List Char) :=
  match fuel with
  | 0 => none
  | fuel + 1 =>
    if "-->".data.isPrefixOf s then some (s.drop 3)
    else
      match s with
      | _ :: t => findCommentClose fuel t
      | [] => none

/-- `replace(/<!--[\s\S]*?-->/g, '')`. -/
def removeCommentsAux (fuel : Nat) (s : List Char) : List Char :=
  match fuel with
  | 0 => s
  | fuel + 1 =>
    match s with
    | [] => []
    | c :: t =>
      if "<!--".data.isPrefixOf s then
        match findCommentClose (s.length + 1) (s.drop 4) with
        | some rest => removeCommentsAux fuel rest
        | none => c :: removeCommentsAux fuel t
      else c :: removeCommentsAux fuel t

/-- The `hasOnlySlots` test of `processDeclarativeShadowDOM`: serialize the
template's content, delete slot spans and comments, and test whether only
whitespace remains. -/
def hasOnlySlotsCheck (inner : String) : Bool :=
  jsTrim ⟨removeCommentsAux (inner.length + 1)
    (removeSlotsAux (inner.length + 1) inner.data)⟩ = ""

/-- Is this node a `<template>` carrying a renamed shadow-root attribute
(`child.tagName === 'TEMPLATE'` with `data-shadowrootmode` or
`data-shadowmode`)? -/
def isShadowTemplate : Node → Bool
  | .elem tag attrs _ =>
    tag = "TEMPLATE" &&
    ((lookupA attrs "data-shadowrootmode").isSome ||
     (lookupA attrs "data-shadowmode").isSome)
  | _ => false

/-- `processDeclarativeShadowDOM(element)`: with the first shadow template
among the children, either drop the template (keeping the light DOM) when
the template has only slots or non-template element children exist, or
append the template's non-comment content to the host and drop the
template.  The host's `loaded` attribute is removed in both cases. -/
def processShadow (fuel : Nat) (attrs : List (String × String))
    (children : List Node) : List (String × String) × List Node :=
  match children.findIdx? isShadowTemplate with
  | none => (attrs, children)
  | some k =>
    let tmplChildren := match children.get? k with
      | some (.elem _ _ cs) => cs
      | _ => []
    let inner := serializeList fuel false tmplChildren
    let onlySlots := hasOnlySlotsCheck inner
    let lightCount := (children.filter Node.isElem).length - 1
    let children' :=
      if onlySlots || lightCount > 0 then children.eraseIdx k
      else children.eraseIdx k ++ tmplChildren.filter (fun n => !n.isComment)
    (attrs.filter (fun kv => kv.1 ≠ "loaded"), children')

/-- `updateInlineStyle(element, media, base)`: a non-empty `style` attribute
is rewritten through `replaceReferences` by raw attribute read/write. -/
def updateInlineStyleA (fuel : Nat) (media : List (String × Asset))
    (base : String) (attrs : List (String × String)) :
    Except String (List (String × String)) :=
  match lookupA attrs "style" with
  | some s =>
    if s = "" then .ok attrs
    else (rrLoop fuel media base s 0).map (fun r => upsertA attrs "style" r)
  | none => .ok attrs

/-- The first element child (jsdom's `document.documentElement`). -/
def firstElemChild : Node → Option Node
  | .elem _ _ cs => cs.find? Node.isElem
  | _ => none

mutual

/-- The breadth-first rewriting pass of `convert`, expressed per node: each
node is visited exactly once as a child of its parent, where its shadow
template (if any) is flattened and its tag dispatched; a node replaced by a
fresh `<style>` stays in the traversal queue detached from the document, so
its original subtree is still walked for its (observable) errors while the
replacement's fresh content is never revisited.  `fuel` bounds the
recursion (the JS recursion is bounded only by the stack); every recursive
call strictly decreases it, so the definitions reduce in the kernel. -/
def transformChild (fuel : Nat) (media : List (String × Asset)) (index : String)
    (frames : List (String × Asset)) (ci : Bool) (pd : String → Node) :
    Node → Except String Node
  | n =>
    match fuel with
    | 0 => .error "Recursion limit"
    | fuel + 1 =>
      match n with
      | .text s => .ok (.text s)
      | .comment s => .ok (.comment s)
      | .elem tag attrs0 children0 =>
        let href := lookupA attrs0 "href"
        let src := lookupA attrs0 "src"
        let attrs1 := attrs0.filter (fun kv => kv.1 ≠ "integrity")
        let flat := if children0.any isShadowTemplate then
            processShadow fuel attrs1 children0
          else (attrs1, children0)
        dispatchElem fuel media index frames ci pd tag href src flat.1 flat.2
termination_by structural fuel

/-- The keep-the-element fallthrough shared by several `switch` branches:
transform the children and rebuild the element unchanged. -/
def dispatchKeep (fuel : Nat) (media : List (String × Asset)) (index : String)
    (frames : List (String × Asset)) (ci : Bool) (pd : String → Node)
    (tag : String) (attrs : List (String × String)) (children : List Node) :
    Except String Node :=
  match fuel with
  | 0 => .error "Recursion limit"
  | fuel + 1 => do
    let cs ← transformList fuel media index frames ci pd children
    .ok (.elem tag attrs cs)
termination_by structural fuel

/-- The `HEAD` branch: insert `<base target="_parent">` as first child. -/
def dispatchHead (fuel : Nat) (media : List (String × Asset)) (index : String)
    (frames : List (String × Asset)) (ci : Bool) (pd : String → Node)
    (tag : String) (attrs : List (String × String)) (children : List Node) :
    Except String Node :=
  match fuel with
  | 0 => .error "Recursion limit"
  | fuel + 1 => do
    let children' := Node.elem "BASE" [("target", "_parent")] [] :: children
    let cs ← transformList fuel media index frames ci pd children'
    .ok (.elem tag attrs cs)
termination_by structural fuel

/-- The `LINK` branch: only a `rel="stylesheet"` link whose `href` is
*directly* a `media` key of type `text/css` is replaced by a fresh
`<style>` holding the `processCSS` output; every other link is kept.  The
replaced link's original subtree is still walked (it stays in the BFS
queue), so only its errors remain observable. -/
def dispatchLink (fuel : Nat) (media : List (String × Asset)) (index : String)
    (frames : List (String × Asset)) (ci : Bool) (pd : String → Node)
    (tag : String) (href : Option String) (attrs : List (String × String))
    (children : List Node) : Except String Node :=
  match fuel with
  | 0 => .error "Recursion limit"
  | fuel + 1 =>
    let rel := lookupA attrs "rel"
    let hkey := match href with
      | some h => h
      | none => "null"
    match rel, lookupA media hkey with
    | some r, some entry =>
      if r = "stylesheet" && entry.type = "text/css" then do
        let s ← processCSS fuel media hkey
        let _ ← transformList fuel media index frames ci pd children
        .ok (.elem "STYLE" [("type", "text/css")] [.text (s.getD "null")])
      else dispatchKeep fuel media index frames ci pd tag attrs children
    | _, _ => dispatchKeep fuel media index frames ci pd tag attrs children
termination_by structural fuel

/-- The `STYLE` branch: replace by a fresh `<style>` whose text is the
rewriter's output over the original `innerHTML`. -/
def dispatchStyle (fuel : Nat) (media : List (String × Asset)) (index : String)
    (frames : List (String × Asset)) (ci : Bool) (pd : String → Node)
    (children : List Node) : Except String Node :=
  match fuel with
  | 0 => .error "Recursion limit"
  | fuel + 1 => do
    let inner := serializeList fuel true children
    let r ← rrLoop fuel media index inner 0
    let _ ← transformList fuel media index frames ci pd children
    .ok (.elem "STYLE" [("type", "text/css")] [.text r])
termination_by structural fuel

/-- The `IMG` branch: embed a directly-keyed image asset as a data URI
(conversion failures are caught and leave `src` unchanged), then rewrite
the inline style. -/
def dispatchImg (fuel : Nat) (media : List (String × Asset)) (index : String)
    (frames : List (String × Asset)) (ci : Bool) (pd : String → Node)
    (tag : String) (src : Option String) (attrs : List (String × String))
    (children : List Node) : Except String Node :=
  match fuel with
  | 0 => .error "Recursion limit"
  | fuel + 1 => do
    let skey := match src with
      | some s => s
      | none => "null"
    let attrs2 := match lookupA media skey with
      | some entry =>
        if jsIncludesS entry.type "image" then
          match convertAssetToDataURI entry with
          | .ok uri => upsertA attrs "src" uri
          | .error _ => attrs
        else attrs
      | none => attrs
    let attrs3 ← updateInlineStyleA fuel media index attrs2
    let cs ← transformList fuel media index frames ci pd children
    .ok (.elem tag attrs3 cs)
termination_by structural fuel

/-- The `IFRAME` branch under `convertIframes`: a `cid:` source whose frame
exists with type `text/html` is converted recursively (over a synthesised
archive sharing the tables) and embedded as a percent-encoded data URI. -/
def dispatchIframe (fuel : Nat) (media : List (String × Asset)) (index : String)
    (frames : List (String × Asset)) (ci : Bool) (pd : String → Node)
    (tag : String) (src : Option String) (attrs : List (String × String))
    (children : List Node) : Except String Node :=
  match fuel with
  | 0 => .error "Recursion limit"
  | fuel + 1 =>
    match ci, src with
    | true, some s =>
      if s = "" then dispatchKeep fuel media index frames ci pd tag attrs children
      else
        let inner := ((jsSplitStr s.data "cid:".data).get? 1).getD "undefined".data
        let idStr := "<" ++ (⟨inner⟩ : String) ++ ">"
        match lookupA frames idStr with
        | some frame =>
          if frame.type = "text/html" then do
            let iframeDom ← convertArch fuel
              ⟨frames, upsertA media idStr frame, idStr⟩ ci pd
            let docEl ← match firstElemChild iframeDom with
              | some e => .ok e
              | none => .error "TypeError: documentElement is null"
            let srcVal := "data:text/html;charset=utf-8," ++
              encodeURIComponentS (serializeNode fuel docEl)
            let cs ← transformList fuel media index frames ci pd children
            .ok (.elem tag (upsertA attrs "src" srcVal) cs)
          else dispatchKeep fuel media index frames ci pd tag attrs children
        | none => dispatchKeep fuel media index frames ci pd tag attrs children
    | _, _ => dispatchKeep fuel media index frames ci pd tag attrs children
termination_by structural fuel

/-- Every other tag: rewrite the inline `style` attribute and keep the
element. -/
def dispatchDefault (fuel : Nat) (media : List (String × Asset)) (index : String)
    (frames : List (String × Asset)) (ci : Bool) (pd : String → Node)
    (tag : String) (attrs : List (String × String)) (children : List Node) :
    Except String Node :=
  match fuel with
  | 0 => .error "Recursion limit"
  | fuel + 1 => do
    let attrs2 ← updateInlineStyleA fuel media index attrs
    let cs ← transformList fuel media index frames ci pd children
    .ok (.elem tag attrs2 cs)
termination_by structural fuel

/-- The `switch (child.tagName)` dispatch of the rewriting pass, applied to
an element's tag, its captured `href`/`src` attributes, and its
already-flattened attribute list and children. -/
def dispatchElem (fuel : Nat) (media : List (String × Asset)) (index : String)
    (frames : List (String × Asset)) (ci : Bool) (pd : String → Node)
    (tag : String) (href src : Option String)
    (attrs : List (String × String)) (children : List Node) :
    Except String Node :=
  match fuel with
  | 0 => .error "Recursion limit"
  | fuel + 1 =>
    if tag = "HEAD" then
      dispatchHead fuel media index frames ci pd tag attrs children
    else if tag = "LINK" then
      dispatchLink fuel media index frames ci pd tag href attrs children
    else if tag = "STYLE" then
      dispatchStyle fuel media index frames ci pd children
    else if tag = "IMG" then
      dispatchImg fuel media index frames ci pd tag src attrs children
    else if tag = "IFRAME" then
      dispatchIframe fuel media index frames ci pd tag src attrs children
    else
      dispatchDefault fuel media index frames ci pd tag attrs children
termination_by structural fuel

/-- Transform every child of a node (the per-level step of the BFS). -/
def transformList (fuel : Nat) (media : List (String × Asset)) (index : String)
    (frames : List (String × Asset)) (ci : Bool) (pd : String → Node) :
    List Node → Except String (List Node)
  | ns =>
    match fuel with
    | 0 => .error "Recursion limit"
    | fuel + 1 =>
      match ns with
      | [] => .ok []
      | n :: t => do
        let n' ← transformChild fuel media index frames ci pd n
        let t' ← transformList fuel media index frames ci pd t
        .ok (n' :: t')
termination_by structural fuel

/-- `mhtml2html.convert` on a parsed archive: the four assertions (the
first three hold for every typed archive; the fourth is the `media[index] &&
media[index].type === "text/html"` check), the `shadowrootmode`/`shadowmode`
renames, the DOM-provider call, and the rewriting pass over the document's
children (the document node itself is never dispatched). -/
def convertArch (fuel : Nat) (a : Archive) (ci : Bool) (pd : String → Node) :
    Except String Node :=
  match fuel with
  | 0 => .error "Recursion limit"
  | fuel + 1 =>
    match lookupA a.media a.index with
    | none => .error "MHTML error: invalid index"
    | some idx =>
      if idx.type = "text/html" then
        let htmlContent := replaceCI
          (replaceCI idx.data "shadowrootmode=" "data-shadowrootmode=")
          "shadowmode=" "data-shadowmode="
        match pd htmlContent with
        | .elem t as cs => do
          let cs' ← transformList fuel a.media a.index a.frames ci pd cs
          .ok (.elem t as cs')
        | n => .ok n
      else .error "MHTML error: invalid index"
termination_by structural fuel

end

/-- `mhtml2html.convert` for an already-parsed archive (the string overload
first runs `parse` and then proceeds identically). -/
def convert (a : Archive) (convertIframes : Bool) (pd : String → Node)
    (fuel : Nat) : Except String Node :=
  convertArch fuel a convertIframes pd

/-! ## Specification-level step functions for the parse tables

The net effect of one part on the two tables, used to state which part an
archive entry came from. -/

/-- Net effect of a finished part on `media`: register under the
`Content-Location` only when the key is still free. -/
def mediaStep (m : List (String × Asset)) (p : Part) : List (String × Asset) :=
  match p.location with
  | some L => if (lookupA m L).isNone then m ++ [(L, p.asset)] else m
  | none => m

/-- Net effect of a finished part on `frames`: register under the
`Content-ID`, overwriting any earlier part's entry. -/
def frameStep (f : List (String × Asset)) (p : Part) : List (String × Asset) :=
  match p.id with
  | some i => upsertA f i p.asset
  | none => f

/-! ## Association-list lemmas -/

theorem lookupA_append_some {m t : List (String × α)} {k : String} {v : α}
    (h : lookupA m k = some v) : lookupA (m ++ t) k = some v := by
  induction m with
  | nil => simp [lookupA] at h
  | cons hd tl ih =>
    obtain ⟨k', v'⟩ := hd
    by_cases hk : k' = k
    · simp only [lookupA, if_pos hk] at h
      simp only [List.cons_append, lookupA, if_pos hk]
      exact h
    · simp only [lookupA, if_neg hk] at h
      simp only [List.cons_append, lookupA, if_neg hk]
      exact ih h

theorem lookupA_append_none {m : List (String × α)} {k : String}
    (h : lookupA m k = none) (t : List (String × α)) :
    lookupA (m ++ t) k = lookupA t k := by
  induction m with
  | nil => simp
  | cons hd tl ih =>
    obtain ⟨k', v'⟩ := hd
    by_cases hk : k' = k
    · simp [lookupA, if_pos hk] at h
    · simp only [lookupA, if_neg hk] at h
      simp only [List.cons_append, lookupA, if_neg hk]
      exact ih h

theorem lookupA_upsertA_self (m : List (String × α)) (k : String) (v : α) :
    lookupA (upsertA m k v) k = some v := by
  induction m with
  | nil => simp [upsertA, lookupA]
  | cons hd tl ih =>
    obtain ⟨k', v'⟩ := hd
    by_cases hk : k' = k
    · simp [upsertA, if_pos hk, lookupA]
    · simp only [upsertA, if_neg hk, lookupA, if_neg hk]
      exact ih

theorem lookupA_upsertA_ne {m : List (String × α)} {k k' : String} (v : α)
    (h : k' ≠ k) : lookupA (upsertA m k v) k' = lookupA m k' := by
  induction m with
  | nil =>
    simp only [upsertA, lookupA]
    rw [if_neg (fun hh => h (hh.symm))]
  | cons hd tl ih =>
    obtain ⟨a, b⟩ := hd
    by_cases hk : a = k
    · simp only [upsertA, if_pos hk, lookupA]
      rw [if_neg (fun hh => h hh.symm), if_neg (fun hh => h (hk ▸ hh).symm)]
    · simp only [upsertA, if_neg hk, lookupA]
      by_cases ha : a = k'
      · simp [ha]
      · simp only [if_neg ha]
        exact ih

theorem upsertA_append_fresh {m : List (String × α)} {k : String}
    (h : lookupA m k = none) (a b : α) :
    upsertA (m ++ [(k, a)]) k b = m ++ [(k, b)] := by
  induction m with
  | nil => simp [upsertA]
  | cons hd tl ih =>
    obtain ⟨k', v'⟩ := hd
    by_cases hk : k' = k
    · simp [lookupA, if_pos hk] at h
    · simp only [lookupA, if_neg hk] at h
      simp only [List.cons_append, upsertA, if_neg hk, List.append_eq]
      rw [ih h]

theorem upsertA_upsertA (m : List (String × α)) (k : String) (a b : α) :
    upsertA (upsertA m k a) k b = upsertA m k b := by
  induction m with
  | nil => simp [upsertA]
  | cons hd tl ih =>
    obtain ⟨k', v'⟩ := hd
    by_cases hk : k' = k
    · simp [upsertA, if_pos hk]
    · simp only [upsertA, if_neg hk]
      rw [ih]

/-! ## The net effect of one part on the tables -/

/-- When the index is already established, `extractPartHead` returns it
unchanged. -/
theorem extractPartHead_some_index {content : List (String × String)}
    {s : String} {w : String × Option String × Option String × String × String}
    (hex : extractPartHead content (some s) = .ok w) : w.1 = s := by
  unfold extractPartHead at hex
  simp only [Bind.bind, Except.bind] at hex
  split at hex
  · simp at hex
  · split at hex
    · cases hex; rfl
    · simp at hex
    · simp at hex

/-- A successful `readPart` changes `media` by `mediaStep` and `frames` by
`frameStep` for the part it parsed: registration stores the empty-bodied
asset, and the aliasing write-back replaces it (only in the entries
registered for this very part) with the finished asset. -/
theorem readPart_step {fuel : Nat} {chars : List Char} {boundary : String}
    {media frames : List (String × Asset)} {index : Option String}
    {key : Option String} {r : PartRes}
    (h : readPart fuel chars boundary media frames index key = .ok r) :
    r.media = mediaStep media r.part ∧ r.frames = frameStep frames r.part ∧
    (∀ s, index = some s → r.index = s) := by
  unfold readPart at h
  cases hhb : headerBlock fuel chars [] key with
  | error e => rw [hhb] at h; simp [Bind.bind, Except.bind] at h
  | ok v =>
    obtain ⟨content, key', rest⟩ := v
    rw [hhb] at h
    simp only [Bind.bind, Except.bind] at h
    cases hex : extractPartHead content index with
    | error e => rw [hex] at h; simp at h
    | ok w =>
      obtain ⟨idxStr, id, location, enc, ty⟩ := w
      rw [hex] at h
      simp only [] at h
      cases htr : trimWS rest with
      | error e => rw [htr] at h; simp at h
      | ok rest2 =>
        rw [htr] at h
        simp only [] at h
        cases hdl : dataLoop fuel rest2 boundary enc "" with
        | error e => rw [hdl] at h; simp at h
        | ok dl =>
          obtain ⟨dataRaw, rest3⟩ := dl
          rw [hdl] at h
          simp only [] at h
          cases h
          refine ⟨?_, ?_, ?_⟩
          · cases location with
            | none => rfl
            | some L =>
              simp only [mediaStep]
              cases hml : lookupA media L with
              | none =>
                simp only [hml, Option.isNone_none, if_true]
                exact upsertA_append_fresh hml _ _
              | some y => simp [hml]
          · cases id with
            | none => rfl
            | some i =>
              simp only [frameStep]
              exact upsertA_upsertA _ _ _ _
          · intro s hs
            subst hs
            exact extractPartHead_some_index hex

/-- The instrumented part loop folds the step functions over the parts it
records. -/
theorem partLoopP_fold {δ : Type} (fuel : Nat) :
    ∀ {chars : List Char} {boundary : String}
    {media frames : List (String × Asset)} {index key : Option String}
    {pd : String → δ} {ps : List Part} {a : Archive} {psOut : List Part},
    partLoopP fuel chars boundary media frames index key false pd ps =
      .ok (.archive a, psOut) →
    ∃ Δ, psOut = ps ++ Δ ∧ a.media = Δ.foldl mediaStep media ∧
      a.frames = Δ.foldl frameStep frames := by
  induction fuel with
  | zero =>
    intro chars bd media frames index key pd ps a psOut h
    simp [partLoopP] at h
  | succ fuel ih =>
    intro chars bd media frames index key pd ps a psOut h
    simp only [partLoopP, Bind.bind, Except.bind] at h
    cases hrp : readPart fuel chars bd media frames index key with
    | error e => rw [hrp] at h; simp at h
    | ok r =>
      rw [hrp] at h
      simp only [Bool.false_eq_true, if_false] at h
      by_cases hr : r.rest.length ≤ 1
      · rw [if_pos hr] at h
        simp only [Except.ok.injEq, Prod.mk.injEq, ParseResult.archive.injEq] at h
        obtain ⟨ha, hps⟩ := h
        refine ⟨[r.part], hps.symm, ?_, ?_⟩
        · rw [← ha]
          simpa using (readPart_step hrp).1
        · rw [← ha]
          simpa using (readPart_step hrp).2.1
      · rw [if_neg hr] at h
        obtain ⟨Δ', hps, hm, hf⟩ := ih h
        refine ⟨r.part :: Δ', by simpa using hps, ?_, ?_⟩
        · rw [hm, List.foldl_cons, (readPart_step hrp).1]
        · rw [hf, List.foldl_cons, (readPart_step hrp).2.1]

/-- The instrumented loop agrees with the plain loop on the result. -/
theorem partLoopP_partLoop {δ : Type} (fuel : Nat) :
    ∀ {chars : List Char} {boundary : String}
    {media frames : List (String × Asset)} {index key : Option String}
    {ho : Bool} {pd : String → δ} {ps : List Part} {res : ParseResult δ}
    {psOut : List Part},
    partLoopP fuel chars boundary media frames index key ho pd ps =
      .ok (res, psOut) →
    partLoop fuel chars boundary media frames index key ho pd = .ok res := by
  induction fuel with
  | zero =>
    intro chars bd media frames index key ho pd ps res psOut h
    simp [partLoopP] at h
  | succ fuel ih =>
    intro chars bd media frames index key ho pd ps res psOut h
    simp only [partLoopP, Bind.bind, Except.bind] at h
    simp only [partLoop, Bind.bind, Except.bind]
    cases hrp : readPart fuel chars bd media frames index key with
    | error e => rw [hrp] at h; simp at h
    | ok r =>
      rw [hrp] at h
      cases ho with
      | true =>
        simp only [if_true] at h ⊢
        simp only [Except.ok.injEq, Prod.mk.injEq] at h
        rw [h.1]
      | false =>
        simp only [Bool.false_eq_true, if_false] at h ⊢
        by_cases hr : r.rest.length ≤ 1
        · rw [if_pos hr] at h ⊢
          simp only [Except.ok.injEq, Prod.mk.injEq] at h
          rw [h.1]
        · rw [if_neg hr] at h ⊢
          exact ih h

/-- The instrumented parse agrees with `parse` on the result. -/
theorem parseParts_parse {mhtml : String} {ho : Bool} {pd : String → δ}
    {fuel : Nat} {res : ParseResult δ} {psOut : List Part}
    (h : parseParts mhtml ho pd fuel = .ok (res, psOut)) :
    parse mhtml ho pd fuel = .ok res := by
  unfold parseParts at h
  unfold parse parseTop
  simp only [Bind.bind, Except.bind] at h ⊢
  cases hhb : headerBlock fuel mhtml.data [] none with
  | error e => rw [hhb] at h; simp at h
  | ok v =>
    obtain ⟨headers, key, rest⟩ := v
    rw [hhb] at h
    simp only [] at h ⊢
    cases hct : lookupA headers "Content-Type" with
    | none => rw [hct] at h; simp at h
    | some ct =>
      rw [hct] at h
      simp only [] at h ⊢
      cases hbi : jsIndexOfFrom ct.data ['b', 'o', 'u', 'n', 'd', 'a', 'r', 'y', '='] 0 with
      | none => rw [hbi] at h; simp at h
      | some bi =>
        rw [hbi] at h
        simp only [] at h ⊢
        cases htr : trimWS rest with
        | error e => rw [htr] at h; simp at h
        | ok rest2 =>
          rw [htr] at h
          simp only [] at h ⊢
          cases hgl : getLineRaw rest2 with
          | error e => rw [hgl] at h; simp at h
          | ok l2 =>
            obtain ⟨l2, rest3⟩ := l2
            rw [hgl] at h
            simp only [] at h ⊢
            split at h
            · rw [if_pos (by assumption)]
              exact partLoopP_partLoop fuel h
            · simp at h

/-! ## Lookup over the folded step functions -/

theorem lookupA_foldl_mediaStep_some (ps : List Part)
    {m : List (String × Asset)} {L : String} {v : Asset}
    (h : lookupA m L = some v) :
    lookupA (ps.foldl mediaStep m) L = some v := by
  induction ps generalizing m with
  | nil => exact h
  | cons p t ih =>
    simp only [List.foldl_cons]
    apply ih
    unfold mediaStep
    cases p.location with
    | none => exact h
    | some L' =>
      cases hml : lookupA m L' with
      | none =>
        simp only [hml, Option.isNone_none, if_true]
        exact lookupA_append_some h
      | some y => simp only [hml, Option.isNone_some, Bool.false_eq_true,
          if_false]; exact h

theorem lookupA_foldl_mediaStep_none (ps : List Part)
    {m : List (String × Asset)} {L : String} (h : lookupA m L = none) :
    lookupA (ps.foldl mediaStep m) L =
      (ps.find? (fun p => decide (p.location = some L))).map (·.asset) := by
  induction ps generalizing m with
  | nil => simpa using h
  | cons p t ih =>
    simp only [List.foldl_cons]
    by_cases hp : p.location = some L
    · have hstep : lookupA (mediaStep m p) L = some p.asset := by
        unfold mediaStep
        rw [hp]
        simp only [h, Option.isNone_none, if_true]
        rw [lookupA_append_none h]
        simp [lookupA]
      rw [lookupA_foldl_mediaStep_some t hstep]
      rw [List.find?_cons_of_pos _ (by simp [hp])]
      simp
    · have hstep : lookupA (mediaStep m p) L = none := by
        unfold mediaStep
        cases hpl : p.location with
        | none => exact h
        | some L' =>
          have hne : L' ≠ L := by
            intro hh
            exact hp (by rw [hpl, hh])
          cases hml : lookupA m L' with
          | none =>
            simp only [hml, Option.isNone_none, if_true]
            rw [lookupA_append_none h]
            simp [lookupA, hne]
          | some y =>
            simp only [hml, Option.isNone_some, Bool.false_eq_true, if_false]
            exact h
      rw [ih hstep]
      rw [List.find?_cons_of_neg _ (by simp [hp])]

theorem lookupA_foldl_frameStep (ps : List Part) (f : List (String × Asset))
    (I : String) :
    lookupA (ps.foldl frameStep f) I =
      match ps.reverse.find? (fun p => decide (p.id = some I)) with
      | some p => some p.asset
      | none => lookupA f I := by
  induction ps generalizing f with
  | nil => simp
  | cons p t ih =>
    simp only [List.foldl_cons, List.reverse_cons]
    rw [ih]
    rw [List.find?_append]
    cases hf : t.reverse.find? (fun p => decide (p.id = some I)) with
    | some q => simp [hf, Option.orElse]
    | none =>
      simp only [hf, Option.none_orElse]
      by_cases hp : p.id = some I
      · have hfp : List.find? (fun q => decide (q.id = some I)) [p] = some p := by
          simp [List.find?, hp]
        rw [hfp]
        unfold frameStep
        rw [hp]
        exact lookupA_upsertA_self f I p.asset
      · have hfp : List.find? (fun q => decide (q.id = some I)) [p] = none := by
          simp [List.find?, hp]
        rw [hfp]
        unfold frameStep
        cases hpi : p.id with
        | none => rfl
        | some I' =>
          have hne : I ≠ I' := by
            intro hh
            exact hp (by rw [hpi, hh])
          exact lookupA_upsertA_ne _ hne

/-- A successful archive-producing `parseParts` run builds both tables by
folding the step functions over the recorded parts. -/
theorem parseParts_archive_tables {δ : Type} {mhtml : String} {pd : String → δ}
    {fuel : Nat} {a : Archive} {ps : List Part}
    (h : parseParts mhtml false pd fuel = .ok (.archive a, ps)) :
    a.media = ps.foldl mediaStep [] ∧ a.frames = ps.foldl frameStep [] := by
  unfold parseParts at h
  simp only [Bind.bind, Except.bind] at h
  cases hhb : headerBlock fuel mhtml.data [] none with
  | error e => rw [hhb] at h; simp at h
  | ok v =>
    obtain ⟨headers, key, rest⟩ := v
    rw [hhb] at h
    simp only [] at h
    cases hct : lookupA headers "Content-Type" with
    | none => rw [hct] at h; simp at h
    | some ct =>
      rw [hct] at h
      simp only [] at h
      cases hbi : jsIndexOfFrom ct.data ['b', 'o', 'u', 'n', 'd', 'a', 'r', 'y', '='] 0 with
      | none => rw [hbi] at h; simp at h
      | some bi =>
        rw [hbi] at h
        simp only [] at h
        cases htr : trimWS rest with
        | error e => rw [htr] at h; simp at h
        | ok rest2 =>
          rw [htr] at h
          simp only [] at h
          cases hgl : getLineRaw rest2 with
          | error e => rw [hgl] at h; simp at h
          | ok l2 =>
            obtain ⟨l2, rest3⟩ := l2
            rw [hgl] at h
            simp only [] at h
            split at h
            · obtain ⟨Δ, hps, hm, hf⟩ := partLoopP_fold fuel h
              simp only [List.nil_append] at hps
              subst hps
              exact ⟨hm, hf⟩
            · simp at h

/-- Claim C5: in an input stream where several parts carry the same
`Content-Location`, `media` maps that URL to the resource of the first such
part, carrying that first part's (finished) body; later parts with the same
location are silently not registered.  Stated over the instrumented parser:
whenever it returns an archive together with the ordered list of parsed
parts, `parse` returns that same archive and every `media` entry is exactly
the asset of the *first* part carrying that `Content-Location`. -/
theorem claimC5_media_first_part_wins {δ : Type} (mhtml : String) (fuel : Nat)
    (pd : String → δ) (a : Archive) (ps : List Part)
    (h : parseParts mhtml false pd fuel = .ok (.archive a, ps)) :
    parse mhtml false pd fuel = .ok (.archive a) ∧
    ∀ L, lookupA a.media L =
      (ps.find? (fun p => decide (p.location = some L))).map (·.asset) := by
  refine ⟨parseParts_parse h, fun L => ?_⟩
  rw [(parseParts_archive_tables h).1]
  exact lookupA_foldl_mediaStep_none ps rfl

/-- A three-part input: two parts share the `Content-Location`
`http://a/`, and the second and third share the `Content-ID` `<f1>`. -/
def exDup : String :=
  "Content-Type: multipart/related; boundary=\"BND\"\n\n" ++
  "--BND\n" ++
  "Content-Type: text/html\nContent-Transfer-Encoding: 7bit\nContent-Location: http://a/\n\n" ++
  "first\n" ++
  "--BND\n" ++
  "Content-Type: text/plain\nContent-Transfer-Encoding: 7bit\nContent-Location: http://a/\nContent-ID: <f1>\n\n" ++
  "second\n" ++
  "--BND\n" ++
  "Content-Type: text/plain\nContent-Transfer-Encoding: base64\nContent-ID: <f1>\n\n" ++
  "aGk=\n" ++
  "--BND--\n"

def exDupA1 : Asset := ⟨"7bit", "text/html", "first\n", none⟩

def exDupA2 : Asset := ⟨"7bit", "text/plain", "second\n", some "<f1>"⟩

def exDupA3 : Asset := ⟨"base64", "text/plain", "aGk=", some "<f1>"⟩

/-- What parsing `exDup` produces: `media` binds `http://a/` to the first
part's asset; `frames` binds `<f1>` to the last. -/
def exDupArch : Archive :=
  ⟨[("<f1>", exDupA3)], [("http://a/", exDupA1)], "http://a/"⟩

def exDupParts : List Part :=
  [⟨some "http://a/", none, exDupA1⟩,
   ⟨some "http://a/", some "<f1>", exDupA2⟩,
   ⟨none, some "<f1>", exDupA3⟩]

set_option maxRecDepth 100000

/-- Witness for C5 on `exDup`: the duplicate URL resolves to the first
part's asset (body `"first\n"`), not the second part's. -/
theorem claimC5_media_first_part_wins_witness :
    parse exDup false (fun _ => ()) 1000 = .ok (.archive exDupArch) ∧
    lookupA exDupArch.media "http://a/" = some exDupA1 := by
  have h := claimC5_media_first_part_wins exDup 1000 (fun _ => ())
    exDupArch exDupParts (by rfl)
  exact ⟨h.1, by rw [h.2 "http://a/"]; rfl⟩

/-- Claim C9: in an input stream where several parts carry the same
`Content-ID`, `frames` maps that ID to the resource of the *last* such part
(later occurrences overwrite earlier ones), in contrast to `media` where
the first wins.  Stated over the instrumented parser, via the first match
in the reversed part list. -/
theorem claimC9_frames_last_part_wins {δ : Type} (mhtml : String) (fuel : Nat)
    (pd : String → δ) (a : Archive) (ps : List Part)
    (h : parseParts mhtml false pd fuel = .ok (.archive a, ps)) :
    parse mhtml false pd fuel = .ok (.archive a) ∧
    ∀ I, lookupA a.frames I =
      (ps.reverse.find? (fun p => decide (p.id = some I))).map (·.asset) := by
  refine ⟨parseParts_parse h, fun I => ?_⟩
  rw [(parseParts_archive_tables h).2]
  rw [lookupA_foldl_frameStep]
  cases hf : ps.reverse.find? (fun p => decide (p.id = some I)) with
  | some q => simp [hf]
  | none => simp [hf, lookupA]

/-- Witness for C9 on `exDup`: the duplicate `Content-ID` resolves to the
*third* part's asset (the base64 one), not the second part's. -/
theorem claimC9_frames_last_part_wins_witness :
    parse exDup false (fun _ => ()) 1000 = .ok (.archive exDupArch) ∧
    lookupA exDupArch.frames "<f1>" = some exDupA3 := by
  have h := claimC9_frames_last_part_wins exDup 1000 (fun _ => ())
    exDupArch exDupParts (by rfl)
  exact ⟨h.1, by rw [h.2 "<f1>"]; rfl⟩



/-! ## Error classification for `convert`

For claim C1 the validation assertion must be the only source of the
`MHTML error: invalid index` message: every other failure in the rewriting
pass carries a different message. -/

/-- Decompose a failing `Except` bind. -/
theorem exceptBindErr {α β : Type} {x : Except String α} {f : α → Except String β}
    {e : String} (h : x >>= f = .error e) :
    x = .error e ∨ ∃ v, x = .ok v ∧ f v = .error e := by
  cases x with
  | error a =>
    left
    simp only [Bind.bind, Except.bind, Except.error.injEq] at h
    rw [h]
  | ok v =>
    right
    exact ⟨v, rfl, by simpa [Bind.bind, Except.bind] using h⟩

/-- `Base64.decode` fails only with its fixed message. -/
theorem b64Decode_err {s : String} {e : String} (h : b64Decode s = .error e) :
    e = "Invalid character: the string to be decoded is not correctly encoded." := by
  unfold b64Decode at h
  by_cases hc : ((b64Clean s).length % 4 = 1 ||
      (b64Clean s).any (fun c => !(b64Alphabet.contains c))) = true
  · rw [if_pos hc] at h
    injection h with h'
    exact h'.symm
  · rw [if_neg hc] at h
    exact absurd h (by simp)

/-- Errors out of the CSS rewriter are the fuel marker or the base64 decode
message. -/
theorem rr_pc_err (fuel : Nat) :
    (∀ {media : List (String × Asset)} {base css : String} {i : Nat} {e : String},
      rrLoop fuel media base css i = .error e →
      e = "Loop limit" ∨
      e = "Invalid character: the string to be decoded is not correctly encoded.") ∧
    (∀ {media : List (String × Asset)} {path : String} {e : String},
      processCSS fuel media path = .error e →
      e = "Loop limit" ∨
      e = "Invalid character: the string to be decoded is not correctly encoded.") := by
  induction fuel with
  | zero =>
    constructor
    · intro media base css i e h
      simp only [rrLoop] at h
      cases h
      exact Or.inl rfl
    · intro media path e h
      simp only [processCSS] at h
      cases h
      exact Or.inl rfl
  | succ fuel ih =>
    obtain ⟨ihr, ihp⟩ := ih
    constructor
    · intro media base css i e h
      simp only [rrLoop] at h
      cases hio : jsIndexOfFrom css.data "url(".data i with
      | none => rw [hio] at h; cases h
      | some p =>
        rw [hio] at h
        try simp only [] at h
        by_cases hp : p = 0
        · rw [if_pos hp] at h; cases h
        · rw [if_neg hp] at h
          try simp only [] at h
          cases hfa : findAsset media base
              ⟨jsSubstring css.data (↑(p + 4))
                (match jsIndexOfFrom css.data [')'] (p + 4) with
                 | some q => (q : Int)
                 | none => -1)⟩ with
          | none => rw [hfa] at h; exact ihr h
          | some pe =>
            obtain ⟨path, entry⟩ := pe
            rw [hfa] at h
            try simp only [] at h
            by_cases hcss : entry.type = "text/css"
            · rw [if_pos hcss] at h
              rcases exceptBindErr h with h1 | ⟨v, hv, h2⟩
              · cases hpc : processCSS fuel media path with
                | error e' =>
                  rw [hpc] at h1
                  simp only [Except.map] at h1
                  cases h1
                  exact ihp hpc
                | ok o => rw [hpc] at h1; simp [Except.map] at h1
              · cases hbe : b64Encode v with
                | ok b => rw [hbe] at h2; exact ihr h2
                | error e' => rw [hbe] at h2; exact ihr h2
            · rw [if_neg hcss] at h
              by_cases hb : entry.encoding = "base64"
              · rw [if_pos hb] at h
                rcases exceptBindErr h with h1 | ⟨v, hv, h2⟩
                · exact Or.inr (b64Decode_err h1)
                · cases hbe : b64Encode v with
                  | ok b => rw [hbe] at h2; exact ihr h2
                  | error e' => rw [hbe] at h2; exact ihr h2
              · rw [if_neg hb] at h
                rcases exceptBindErr h with h1 | ⟨v, hv, h2⟩
                · cases h1
                · cases hbe : b64Encode v with
                  | ok b => rw [hbe] at h2; exact ihr h2
                  | error e' => rw [hbe] at h2; exact ihr h2
    · intro media path e h
      simp only [processCSS] at h
      cases hl : lookupA media path with
      | none => rw [hl] at h; cases h
      | some entry =>
        rw [hl] at h
        try simp only [] at h
        by_cases ht : entry.type ≠ "text/css"
        · rw [if_pos ht] at h; cases h
        · rw [if_neg ht] at h
          by_cases hb : entry.encoding = "base64"
          · rw [if_pos hb] at h
            rcases exceptBindErr h with h1 | ⟨v, hv, h2⟩
            · exact Or.inr (b64Decode_err h1)
            · rcases exceptBindErr h2 with h3 | ⟨w, hw, h4⟩
              · exact ihr h3
              · cases h4
          · rw [if_neg hb] at h
            rcases exceptBindErr h with h1 | ⟨v, hv, h2⟩
            · cases h1
            · rcases exceptBindErr h2 with h3 | ⟨w, hw, h4⟩
              · exact ihr h3
              · cases h4

/-- Inline-style rewriting fails only with rewriter errors. -/
theorem updateInlineStyleA_err {fuel : Nat} {media : List (String × Asset)}
    {base : String} {attrs : List (String × String)} {e : String}
    (h : updateInlineStyleA fuel media base attrs = .error e) :
    e = "Loop limit" ∨
    e = "Invalid character: the string to be decoded is not correctly encoded." := by
  unfold updateInlineStyleA at h
  cases hs : lookupA attrs "style" with
  | none => rw [hs] at h; cases h
  | some s =>
    rw [hs] at h
    try simp only [] at h
    by_cases he : s = ""
    · rw [if_pos he] at h; cases h
    · rw [if_neg he] at h
      cases hrr : rrLoop fuel media base s 0 with
      | error e' =>
        rw [hrr] at h
        simp only [Except.map] at h
        cases h
        exact (rr_pc_err fuel).1 hrr
      | ok r => rw [hrr] at h; simp [Except.map] at h

/-- Validity of the index entry of an archive: invariant I1. -/
def archiveIndexValid (a : Archive) : Prop :=
  ∃ x, lookupA a.media a.index = some x ∧ x.type = "text/html"

/-- The common argument block of the rewriting pass in the error lemma. -/
def NoInvalidIndexMsg (e : String) : Prop := e ≠ "MHTML error: invalid index"

/-- None of the rewriting functions can fail with the validation message:
the branch handlers, `dispatchElem`, `transformChild` and `transformList`
never produce it, and `convertArch` produces it only when its own archive
violates I1 (the archive synthesised for an iframe always satisfies I1). -/
theorem transform_err_ne (fuel : Nat) :
    (∀ (media : List (String × Asset)) (index : String)
      (frames : List (String × Asset)) (ci : Bool) (pd : String → Node)
      (n : Node) (e : String),
      transformChild fuel media index frames ci pd n = .error e →
      NoInvalidIndexMsg e) ∧
    (∀ (media : List (String × Asset)) (index : String)
      (frames : List (String × Asset)) (ci : Bool) (pd : String → Node)
      (tag : String) (href src : Option String)
      (attrs : List (String × String)) (children : List Node) (e : String),
      dispatchElem fuel media index frames ci pd tag href src attrs children =
        .error e → NoInvalidIndexMsg e) ∧
    (∀ (media : List (String × Asset)) (index : String)
      (frames : List (String × Asset)) (ci : Bool) (pd : String → Node)
      (tag : String) (attrs : List (String × String)) (children : List Node)
      (e : String),
      dispatchKeep fuel media index frames ci pd tag attrs children = .error e →
      NoInvalidIndexMsg e) ∧
    (∀ (media : List (String × Asset)) (index : String)
      (frames : List (String × Asset)) (ci : Bool) (pd : String → Node)
      (tag : String) (attrs : List (String × String)) (children : List Node)
      (e : String),
      dispatchHead fuel media index frames ci pd tag attrs children = .error e →
      NoInvalidIndexMsg e) ∧
    (∀ (media : List (String × Asset)) (index : String)
      (frames : List (String × Asset)) (ci : Bool) (pd : String → Node)
      (tag : String) (href : Option String) (attrs : List (String × String))
      (children : List Node) (e : String),
      dispatchLink fuel media index frames ci pd tag href attrs children =
        .error e → NoInvalidIndexMsg e) ∧
    (∀ (media : List (String × Asset)) (index : String)
      (frames : List (String × Asset)) (ci : Bool) (pd : String → Node)
      (children : List Node) (e : String),
      dispatchStyle fuel media index frames ci pd children = .error e →
      NoInvalidIndexMsg e) ∧
    (∀ (media : List (String × Asset)) (index : String)
      (frames : List (String × Asset)) (ci : Bool) (pd : String → Node)
      (tag : String) (src : Option String) (attrs : List (String × String))
      (children : List Node) (e : String),
      dispatchImg fuel media index frames ci pd tag src attrs children =
        .error e → NoInvalidIndexMsg e) ∧
    (∀ (media : List (String × Asset)) (index : String)
      (frames : List (String × Asset)) (ci : Bool) (pd : String → Node)
      (tag : String) (src : Option String) (attrs : List (String × String))
      (children : List Node) (e : String),
      dispatchIframe fuel media index frames ci pd tag src attrs children =
        .error e → NoInvalidIndexMsg e) ∧
    (∀ (media : List (String × Asset)) (index : String)
      (frames : List (String × Asset)) (ci : Bool) (pd : String → Node)
      (tag : String) (attrs : List (String × String)) (children : List Node)
      (e : String),
      dispatchDefault fuel media index frames ci pd tag attrs children =
        .error e → NoInvalidIndexMsg e) ∧
    (∀ (media : List (String × Asset)) (index : String)
      (frames : List (String × Asset)) (ci : Bool) (pd : String → Node)
      (ns : List Node) (e : String),
      transformList fuel media index frames ci pd ns = .error e →
      NoInvalidIndexMsg e) ∧
    (∀ (a : Archive) (ci : Bool) (pd : String → Node) (e : String),
      archiveIndexValid a →
      convertArch fuel a ci pd = .error e →
      NoInvalidIndexMsg e) := by
  have hbase : NoInvalidIndexMsg "Recursion limit" := by
    unfold NoInvalidIndexMsg; decide
  induction fuel with
  | zero =>
    refine ⟨?_, ?_, ?_, ?_, ?_, ?_, ?_, ?_, ?_, ?_, ?_⟩
    · intro media index frames ci pd n e h
      have h0 : (Except.error "Recursion limit" : Except String Node) = .error e := h
      cases h0; exact hbase
    · intro media index frames ci pd tag href src attrs children e h
      have h0 : (Except.error "Recursion limit" : Except String Node) = .error e := h
      cases h0; exact hbase
    · intro media index frames ci pd tag attrs children e h
      have h0 : (Except.error "Recursion limit" : Except String Node) = .error e := h
      cases h0; exact hbase
    · intro media index frames ci pd tag attrs children e h
      have h0 : (Except.error "Recursion limit" : Except String Node) = .error e := h
      cases h0; exact hbase
    · intro media index frames ci pd tag href attrs children e h
      have h0 : (Except.error "Recursion limit" : Except String Node) = .error e := h
      cases h0; exact hbase
    · intro media index frames ci pd children e h
      have h0 : (Except.error "Recursion limit" : Except String Node) = .error e := h
      cases h0; exact hbase
    · intro media index frames ci pd tag src attrs children e h
      have h0 : (Except.error "Recursion limit" : Except String Node) = .error e := h
      cases h0; exact hbase
    · intro media index frames ci pd tag src attrs children e h
      have h0 : (Except.error "Recursion limit" : Except String Node) = .error e := h
      cases h0; exact hbase
    · intro media index frames ci pd tag attrs children e h
      have h0 : (Except.error "Recursion limit" : Except String Node) = .error e := h
      cases h0; exact hbase
    · intro media index frames ci pd ns e h
      have h0 : (Except.error "Recursion limit" :
        Except String (List Node)) = .error e := h
      cases h0; exact hbase
    · intro a ci pd e hv h
      have h0 : (Except.error "Recursion limit" : Except String Node) = .error e := h
      cases h0; exact hbase
  | succ fuel ih =>
    obtain ⟨ihc, ihd, ihk, ihh, ihlk, ihst, ihim, ihif, ihdf, ihl, iha⟩ := ih
    have hrr : ∀ {media : List (String × Asset)} {base css : String} {i : Nat}
        {e : String}, rrLoop fuel media base css i = .error e →
        NoInvalidIndexMsg e := by
      intro media base css i e h
      rcases (rr_pc_err fuel).1 h with h' | h' <;> subst h' <;>
        unfold NoInvalidIndexMsg <;> decide
    have hpc : ∀ {media : List (String × Asset)} {path e : String},
        processCSS fuel media path = .error e → NoInvalidIndexMsg e := by
      intro media path e h
      rcases (rr_pc_err fuel).2 h with h' | h' <;> subst h' <;>
        unfold NoInvalidIndexMsg <;> decide
    have huis : ∀ {media : List (String × Asset)} {base : String}
        {attrs : List (String × String)} {e : String},
        updateInlineStyleA fuel media base attrs = .error e →
        NoInvalidIndexMsg e := by
      intro media base attrs e h
      rcases updateInlineStyleA_err h with h' | h' <;> subst h' <;>
        unfold NoInvalidIndexMsg <;> decide
    refine ⟨?_, ?_, ?_, ?_, ?_, ?_, ?_, ?_, ?_, ?_, ?_⟩
    · intro media index frames ci pd n e h
      cases n with
      | text s => simp only [transformChild] at h; cases h
      | comment s => simp only [transformChild] at h; cases h
      | elem tag attrs0 children0 =>
        simp only [transformChild] at h
        exact ihd _ _ _ _ _ _ _ _ _ _ _ h
    · intro media index frames ci pd tag href src attrs children e h
      simp only [dispatchElem] at h
      by_cases h1 : tag = "HEAD"
      · rw [if_pos h1] at h
        exact ihh _ _ _ _ _ _ _ _ _ h
      · rw [if_neg h1] at h
        by_cases h2 : tag = "LINK"
        · rw [if_pos h2] at h
          exact ihlk _ _ _ _ _ _ _ _ _ _ h
        · rw [if_neg h2] at h
          by_cases h3 : tag = "STYLE"
          · rw [if_pos h3] at h
            exact ihst _ _ _ _ _ _ _ h
          · rw [if_neg h3] at h
            by_cases h4 : tag = "IMG"
            · rw [if_pos h4] at h
              exact ihim _ _ _ _ _ _ _ _ _ _ h
            · rw [if_neg h4] at h
              by_cases h5 : tag = "IFRAME"
              · rw [if_pos h5] at h
                exact ihif _ _ _ _ _ _ _ _ _ _ h
              · rw [if_neg h5] at h
                exact ihdf _ _ _ _ _ _ _ _ _ h
    · intro media index frames ci pd tag attrs children e h
      simp only [dispatchKeep] at h
      rcases exceptBindErr h with hx | ⟨v, hv, hx⟩
      · exact ihl _ _ _ _ _ _ _ hx
      · cases hx
    · intro media index frames ci pd tag attrs children e h
      simp only [dispatchHead] at h
      rcases exceptBindErr h with hx | ⟨v, hv, hx⟩
      · exact ihl _ _ _ _ _ _ _ hx
      · cases hx
    · intro media index frames ci pd tag href attrs children e h
      simp only [dispatchLink] at h
      cases href <;> try simp only [] at h
      all_goals
        rcases hm : lookupA attrs "rel" with _ | r <;> rw [hm] at h <;>
          try simp only [] at h
      all_goals
        first
        | exact ihk _ _ _ _ _ _ _ _ _ h
        | (rename_i hrefs
           rcases hk : lookupA media hrefs with _ | entry <;> rw [hk] at h <;>
             try simp only [] at h
           · exact ihk _ _ _ _ _ _ _ _ _ h
           · by_cases hsty : (r = "stylesheet" && entry.type = "text/css") = true
             · rw [if_pos hsty] at h
               rcases exceptBindErr h with hx | ⟨v, hv, hx⟩
               · exact hpc hx
               · rcases exceptBindErr hx with hy | ⟨w, hw, hy⟩
                 · exact ihl _ _ _ _ _ _ _ hy
                 · cases hy
             · rw [if_neg hsty] at h
               exact ihk _ _ _ _ _ _ _ _ _ h)
        | (rcases hk : lookupA media "null" with _ | entry <;> rw [hk] at h <;>
             try simp only [] at h
           · exact ihk _ _ _ _ _ _ _ _ _ h
           · by_cases hsty : (r = "stylesheet" && entry.type = "text/css") = true
             · rw [if_pos hsty] at h
               rcases exceptBindErr h with hx | ⟨v, hv, hx⟩
               · exact hpc hx
               · rcases exceptBindErr hx with hy | ⟨w, hw, hy⟩
                 · exact ihl _ _ _ _ _ _ _ hy
                 · cases hy
             · rw [if_neg hsty] at h
               exact ihk _ _ _ _ _ _ _ _ _ h)
    · intro media index frames ci pd children e h
      simp only [dispatchStyle] at h
      rcases exceptBindErr h with hx | ⟨v, hv, hx⟩
      · exact hrr hx
      · rcases exceptBindErr hx with hy | ⟨w, hw, hy⟩
        · exact ihl _ _ _ _ _ _ _ hy
        · cases hy
    · intro media index frames ci pd tag src attrs children e h
      simp only [dispatchImg] at h
      rcases exceptBindErr h with hx | ⟨v, hv, hx⟩
      · exact huis hx
      · rcases exceptBindErr hx with hy | ⟨w, hw, hy⟩
        · exact ihl _ _ _ _ _ _ _ hy
        · cases hy
    · intro media index frames ci pd tag src attrs children e h
      simp only [dispatchIframe] at h
      rcases hci : ci with _ | _ <;> rw [hci] at h <;>
        rcases hsrc : src with _ | s <;> rw [hsrc] at h <;>
        try simp only [] at h
      · exact ihk _ _ _ _ _ _ _ _ _ h
      · exact ihk _ _ _ _ _ _ _ _ _ h
      · exact ihk _ _ _ _ _ _ _ _ _ h
      · by_cases hse : s = ""
        · rw [if_pos hse] at h
          exact ihk _ _ _ _ _ _ _ _ _ h
        · rw [if_neg hse] at h
          try simp only [] at h
          cases hfr : lookupA frames
              ("<" ++ (⟨((jsSplitStr s.data "cid:".data).get? 1).getD
                "undefined".data⟩ : String) ++ ">") with
          | none =>
            rw [hfr] at h
            try simp only [] at h
            exact ihk _ _ _ _ _ _ _ _ _ h
          | some frame =>
            rw [hfr] at h
            try simp only [] at h
            by_cases hft : frame.type = "text/html"
            · rw [if_pos hft] at h
              rcases exceptBindErr h with hx | ⟨v, hv, hx⟩
              · refine iha _ _ _ _ ?_ hx
                exact ⟨frame, lookupA_upsertA_self _ _ _, hft⟩
              · simp only [Bind.bind, Except.bind] at hx
                cases hfe : firstElemChild v with
                | none =>
                  rw [hfe] at hx
                  try simp only [] at hx
                  cases hx
                  unfold NoInvalidIndexMsg; decide
                | some d =>
                  rw [hfe] at hx
                  try simp only [] at hx
                  cases htl : transformList fuel media index frames true pd children with
                  | error e2 =>
                    rw [htl] at hx
                    try simp only [] at hx
                    cases hx
                    exact ihl _ _ _ _ _ _ _ htl
                  | ok cs =>
                    rw [htl] at hx
                    try simp only [] at hx
                    cases hx
            · rw [if_neg hft] at h
              exact ihk _ _ _ _ _ _ _ _ _ h
    · intro media index frames ci pd tag attrs children e h
      simp only [dispatchDefault] at h
      rcases exceptBindErr h with hx | ⟨v, hv, hx⟩
      · exact huis hx
      · rcases exceptBindErr hx with hy | ⟨w, hw, hy⟩
        · exact ihl _ _ _ _ _ _ _ hy
        · cases hy
    · intro media index frames ci pd ns e h
      simp only [transformList] at h
      cases ns with
      | nil => cases h
      | cons n t =>
        rcases exceptBindErr h with hx | ⟨v, hv, hx⟩
        · exact ihc _ _ _ _ _ _ _ hx
        · rcases exceptBindErr hx with hy | ⟨w, hw, hy⟩
          · exact ihl _ _ _ _ _ _ _ hy
          · cases hy
    · intro a ci pd e hv h
      simp only [convertArch] at h
      obtain ⟨x, hx, hxt⟩ := hv
      rw [hx] at h
      try simp only [] at h
      rw [if_pos hxt] at h
      cases hpd : pd (replaceCI (replaceCI x.data "shadowrootmode=" "data-shadowrootmode=")
          "shadowmode=" "data-shadowmode=") with
      | elem t as cs =>
        rw [hpd] at h
        rcases exceptBindErr h with hy | ⟨w, hw, hy⟩
        · exact ihl _ _ _ _ _ _ _ hy
        · cases hy
      | text s => rw [hpd] at h; cases h
      | comment s => rw [hpd] at h; cases h

/-- Claim C1: for every parsed-archive input and options, `convert` fails
with the `InvalidArchive` error (`MHTML error: invalid index`) exactly when
the archive violates invariant I1 — its index is not a `media` key or the
index entry's content type is not `text/html`.  In the `Except` model a
failing `convert` produces no DOM by construction.  (For a typed archive
the three preceding assertions on `frames`, `media` and `index` always
hold; the fourth is the I1 check, and no later failure of the rewriting
pass can surface this message, by `transform_err_ne`.) -/
theorem claimC1_convert_invalid_archive_iff (fuel : Nat) (a : Archive)
    (ci : Bool) (pd : String → Node) :
    convert a ci pd (fuel + 1) = .error "MHTML error: invalid index" ↔
    ¬ archiveIndexValid a := by
  constructor
  · intro h hv
    obtain ⟨-, -, -, -, -, -, -, -, -, -, iha⟩ := transform_err_ne (fuel + 1)
    exact iha a ci pd _ hv h rfl
  · intro hv
    show convertArch (fuel + 1) a ci pd = _
    simp only [convertArch]
    cases hl : lookupA a.media a.index with
    | none => rfl
    | some x =>
      have hxt : ¬ x.type = "text/html" := fun hh => hv ⟨x, hl, hh⟩
      try simp only []
      rw [if_neg hxt]

/-! ## Claim C2: stylesheet links in the convert output -/

/-- Is an element (given by tag and attributes) a `rel="stylesheet"` link
whose `href` — looked up the way `convert` does, with a missing attribute
read as the JS string `"null"` — directly hits a `media` entry of type
`text/css`?  Such elements are exactly the ones the `LINK` branch
replaces. -/
def isDirectCssLinkTA (media : List (String × Asset)) (tag : String)
    (attrs : List (String × String)) : Bool :=
  tag = "LINK" &&
  (match lookupA attrs "rel" with
   | some r => r = "stylesheet"
   | none => false) &&
  (match lookupA media (match lookupA attrs "href" with
     | some h => h
     | none => "null") with
   | some e => e.type = "text/css"
   | none => false)

/-- A tree containing no directly-resolvable stylesheet link. -/
inductive GoodTree (media : List (String × Asset)) : Node → Prop where
  | text (s : String) : GoodTree media (.text s)
  | comment (s : String) : GoodTree media (.comment s)
  | elem {tag : String} {attrs : List (String × String)} {children : List Node} :
      isDirectCssLinkTA media tag attrs = false →
      (∀ c ∈ children, GoodTree media c) →
      GoodTree media (.elem tag attrs children)

theorem isDirectCssLinkTA_of_tag_ne {media : List (String × Asset)}
    {tag : String} (attrs : List (String × String)) (h : tag ≠ "LINK") :
    isDirectCssLinkTA media tag attrs = false := by
  simp [isDirectCssLinkTA, h]

theorem lookupA_filter_of_ne {attrs : List (String × α)} {k s : String}
    (h : ¬ k = s) :
    lookupA (attrs.filter (fun kv => kv.1 ≠ s)) k = lookupA attrs k := by
  induction attrs with
  | nil => rfl
  | cons hd tl ih =>
    obtain ⟨k', v⟩ := hd
    by_cases hk : k' = s
    · have hne : ¬ k' = k := fun hh => h (hh ▸ hk)
      have hl : lookupA ((k', v) :: tl) k = lookupA tl k := by
        simp [lookupA, hne]
      rw [hl, ← ih]
      congr 1
      simp [List.filter_cons, hk]
    · have hc : ((k', v) :: tl).filter (fun kv => kv.1 ≠ s)
          = (k', v) :: tl.filter (fun kv => kv.1 ≠ s) := by
        simp [List.filter_cons, hk]
      rw [hc]
      simp only [lookupA]
      by_cases hkk : k' = k
      · simp [hkk]
      · simp only [if_neg hkk]
        exact ih

/-- `processDeclarativeShadowDOM` only touches the `loaded` attribute. -/
theorem processShadow_attrs_lookup (fuel : Nat)
    (attrs : List (String × String)) (children : List Node) {k : String}
    (h : ¬ k = "loaded") :
    lookupA (processShadow fuel attrs children).1 k = lookupA attrs k := by
  unfold processShadow
  cases children.findIdx? isShadowTemplate with
  | none => rfl
  | some i =>
    show lookupA (attrs.filter (fun kv => kv.1 ≠ "loaded")) k = lookupA attrs k
    exact lookupA_filter_of_ne h

/-- Decompose a successful `Except` bind. -/
theorem exceptBindOk {α β : Type} {x : Except String α} {f : α → Except String β}
    {b : β} (h : x >>= f = .ok b) : ∃ v, x = .ok v ∧ f v = .ok b := by
  cases x with
  | error a =>
    simp only [Bind.bind, Except.bind] at h
    cases h
  | ok v =>
    refine ⟨v, rfl, ?_⟩
    simpa only [Bind.bind, Except.bind] using h

/-- The rewriting pass never leaves a directly-resolvable stylesheet link in
a successful output: each handler's output is a good tree (for the keep
handler provided the kept element itself is not such a link, which every
call site guarantees — the `LINK` branch because its `switch` guard failed,
the others because their tag is not `LINK`). -/
theorem transform_goodTree (fuel : Nat) :
    (∀ {media : List (String × Asset)} {index : String}
      {frames : List (String × Asset)} {ci : Bool} {pd : String → Node}
      {n n' : Node},
      transformChild fuel media index frames ci pd n = .ok n' →
      GoodTree media n') ∧
    (∀ {media : List (String × Asset)} {index : String}
      {frames : List (String × Asset)} {ci : Bool} {pd : String → Node}
      {tag : String} {href src : Option String}
      {attrs : List (String × String)} {children : List Node} {n' : Node},
      href = lookupA attrs "href" →
      dispatchElem fuel media index frames ci pd tag href src attrs children =
        .ok n' → GoodTree media n') ∧
    (∀ {media : List (String × Asset)} {index : String}
      {frames : List (String × Asset)} {ci : Bool} {pd : String → Node}
      {tag : String} {attrs : List (String × String)} {children : List Node}
      {n' : Node},
      isDirectCssLinkTA media tag attrs = false →
      dispatchKeep fuel media index frames ci pd tag attrs children = .ok n' →
      GoodTree media n') ∧
    (∀ {media : List (String × Asset)} {index : String}
      {frames : List (String × Asset)} {ci : Bool} {pd : String → Node}
      {tag : String} {attrs : List (String × String)} {children : List Node}
      {n' : Node},
      ¬ tag = "LINK" →
      dispatchHead fuel media index frames ci pd tag attrs children = .ok n' →
      GoodTree media n') ∧
    (∀ {media : List (String × Asset)} {index : String}
      {frames : List (String × Asset)} {ci : Bool} {pd : String → Node}
      {tag : String} {href : Option String} {attrs : List (String × String)}
      {children : List Node} {n' : Node},
      href = lookupA attrs "href" →
      dispatchLink fuel media index frames ci pd tag href attrs children =
        .ok n' → GoodTree media n') ∧
    (∀ {media : List (String × Asset)} {index : String}
      {frames : List (String × Asset)} {ci : Bool} {pd : String → Node}
      {children : List Node} {n' : Node},
      dispatchStyle fuel media index frames ci pd children = .ok n' →
      GoodTree media n') ∧
    (∀ {media : List (String × Asset)} {index : String}
      {frames : List (String × Asset)} {ci : Bool} {pd : String → Node}
      {tag : String} {src : Option String} {attrs : List (String × String)}
      {children : List Node} {n' : Node},
      ¬ tag = "LINK" →
      dispatchImg fuel media index frames ci pd tag src attrs children =
        .ok n' → GoodTree media n') ∧
    (∀ {media : List (String × Asset)} {index : String}
      {frames : List (String × Asset)} {ci : Bool} {pd : String → Node}
      {tag : String} {src : Option String} {attrs : List (String × String)}
      {children : List Node} {n' : Node},
      ¬ tag = "LINK" →
      dispatchIframe fuel media index frames ci pd tag src attrs children =
        .ok n' → GoodTree media n') ∧
    (∀ {media : List (String × Asset)} {index : String}
      {frames : List (String × Asset)} {ci : Bool} {pd : String → Node}
      {tag : String} {attrs : List (String × String)} {children : List Node}
      {n' : Node},
      ¬ tag = "LINK" →
      dispatchDefault fuel media index frames ci pd tag attrs children =
        .ok n' → GoodTree media n') ∧
    (∀ {media : List (String × Asset)} {index : String}
      {frames : List (String × Asset)} {ci : Bool} {pd : String → Node}
      {ns ns' : List Node},
      transformList fuel media index frames ci pd ns = .ok ns' →
      ∀ c ∈ ns', GoodTree media c) := by
  induction fuel with
  | zero =>
    refine ⟨?_, ?_, ?_, ?_, ?_, ?_, ?_, ?_, ?_, ?_⟩
    · intro media index frames ci pd n n' h
      have h0 : (Except.error "Recursion limit" : Except String Node) = .ok n' := h
      cases h0
    · intro media index frames ci pd tag href src attrs children n' hhref h
      have h0 : (Except.error "Recursion limit" : Except String Node) = .ok n' := h
      cases h0
    · intro media index frames ci pd tag attrs children n' hgood h
      have h0 : (Except.error "Recursion limit" : Except String Node) = .ok n' := h
      cases h0
    · intro media index frames ci pd tag attrs children n' htag h
      have h0 : (Except.error "Recursion limit" : Except String Node) = .ok n' := h
      cases h0
    · intro media index frames ci pd tag href attrs children n' hhref h
      have h0 : (Except.error "Recursion limit" : Except String Node) = .ok n' := h
      cases h0
    · intro media index frames ci pd children n' h
      have h0 : (Except.error "Recursion limit" : Except String Node) = .ok n' := h
      cases h0
    · intro media index frames ci pd tag src attrs children n' htag h
      have h0 : (Except.error "Recursion limit" : Except String Node) = .ok n' := h
      cases h0
    · intro media index frames ci pd tag src attrs children n' htag h
      have h0 : (Except.error "Recursion limit" : Except String Node) = .ok n' := h
      cases h0
    · intro media index frames ci pd tag attrs children n' htag h
      have h0 : (Except.error "Recursion limit" : Except String Node) = .ok n' := h
      cases h0
    · intro media index frames ci pd ns ns' h
      have h0 : (Except.error "Recursion limit" :
        Except String (List Node)) = .ok ns' := h
      cases h0
  | succ fuel ih =>
    obtain ⟨ihc, ihd, ihk, ihh, ihlk, ihst, ihim, ihif, ihdf, ihl⟩ := ih
    refine ⟨?_, ?_, ?_, ?_, ?_, ?_, ?_, ?_, ?_, ?_⟩
    · intro media index frames ci pd n n' h
      cases n with
      | text s =>
        simp only [transformChild] at h
        cases h
        exact GoodTree.text s
      | comment s =>
        simp only [transformChild] at h
        cases h
        exact GoodTree.comment s
      | elem tag attrs0 children0 =>
        simp only [transformChild] at h
        by_cases hsh : children0.any isShadowTemplate
        · rw [if_pos hsh] at h
          refine ihd ?_ h
          exact ((processShadow_attrs_lookup fuel _ children0 (by decide)).trans
            (lookupA_filter_of_ne (by decide))).symm
        · rw [if_neg hsh] at h
          refine ihd ?_ h
          exact (lookupA_filter_of_ne (by decide)).symm
    · intro media index frames ci pd tag href src attrs children n' hhref h
      simp only [dispatchElem] at h
      by_cases h1 : tag = "HEAD"
      · rw [if_pos h1] at h
        refine ihh ?_ h
        rw [h1]; decide
      · rw [if_neg h1] at h
        by_cases h2 : tag = "LINK"
        · rw [if_pos h2] at h
          exact ihlk hhref h
        · rw [if_neg h2] at h
          by_cases h3 : tag = "STYLE"
          · rw [if_pos h3] at h
            exact ihst h
          · rw [if_neg h3] at h
            by_cases h4 : tag = "IMG"
            · rw [if_pos h4] at h
              exact ihim h2 h
            · rw [if_neg h4] at h
              by_cases h5 : tag = "IFRAME"
              · rw [if_pos h5] at h
                exact ihif h2 h
              · rw [if_neg h5] at h
                exact ihdf h2 h
    · intro media index frames ci pd tag attrs children n' hgood h
      simp only [dispatchKeep] at h
      rcases exceptBindOk h with ⟨cs, hcs, hok⟩
      cases hok
      exact GoodTree.elem hgood (ihl hcs)
    · intro media index frames ci pd tag attrs children n' htag h
      simp only [dispatchHead] at h
      rcases exceptBindOk h with ⟨cs, hcs, hok⟩
      cases hok
      exact GoodTree.elem (isDirectCssLinkTA_of_tag_ne _ htag) (ihl hcs)
    · intro media index frames ci pd tag href attrs children n' hhref h
      simp only [dispatchLink] at h
      cases href with
      | none =>
        try simp only [] at h
        cases hm : lookupA attrs "rel" with
        | none =>
          rw [hm] at h
          try simp only [] at h
          exact ihk (by simp [isDirectCssLinkTA, hm]) h
        | some r =>
          rw [hm] at h
          try simp only [] at h
          cases hk : lookupA media "null" with
          | none =>
            rw [hk] at h
            try simp only [] at h
            exact ihk (by simp [isDirectCssLinkTA, hm, ← hhref, hk]) h
          | some entry =>
            rw [hk] at h
            try simp only [] at h
            by_cases hsty : (r = "stylesheet" && entry.type = "text/css") = true
            · rw [if_pos hsty] at h
              rcases exceptBindOk h with ⟨s, hs, h2⟩
              rcases exceptBindOk h2 with ⟨u, hu, h3⟩
              cases h3
              refine GoodTree.elem (isDirectCssLinkTA_of_tag_ne _ (by decide)) ?_
              intro c hc
              rw [List.mem_singleton] at hc
              subst hc
              exact GoodTree.text _
            · rw [if_neg hsty] at h
              refine ihk ?_ h
              have hb : (r = "stylesheet" && entry.type = "text/css") = false :=
                Bool.eq_false_iff.mpr hsty
              simp [isDirectCssLinkTA, hm, ← hhref, hk]
              intro _ hr
              rw [hr] at hb
              simpa using hb
      | some hs0 =>
        try simp only [] at h
        cases hm : lookupA attrs "rel" with
        | none =>
          rw [hm] at h
          try simp only [] at h
          exact ihk (by simp [isDirectCssLinkTA, hm]) h
        | some r =>
          rw [hm] at h
          try simp only [] at h
          cases hk : lookupA media hs0 with
          | none =>
            rw [hk] at h
            try simp only [] at h
            exact ihk (by simp [isDirectCssLinkTA, hm, ← hhref, hk]) h
          | some entry =>
            rw [hk] at h
            try simp only [] at h
            by_cases hsty : (r = "stylesheet" && entry.type = "text/css") = true
            · rw [if_pos hsty] at h
              rcases exceptBindOk h with ⟨s, hs, h2⟩
              rcases exceptBindOk h2 with ⟨u, hu, h3⟩
              cases h3
              refine GoodTree.elem (isDirectCssLinkTA_of_tag_ne _ (by decide)) ?_
              intro c hc
              rw [List.mem_singleton] at hc
              subst hc
              exact GoodTree.text _
            · rw [if_neg hsty] at h
              refine ihk ?_ h
              have hb : (r = "stylesheet" && entry.type = "text/css") = false :=
                Bool.eq_false_iff.mpr hsty
              simp [isDirectCssLinkTA, hm, ← hhref, hk]
              intro _ hr
              rw [hr] at hb
              simpa using hb
    · intro media index frames ci pd children n' h
      simp only [dispatchStyle] at h
      rcases exceptBindOk h with ⟨r, hr, h2⟩
      rcases exceptBindOk h2 with ⟨u, hu, h3⟩
      cases h3
      refine GoodTree.elem (isDirectCssLinkTA_of_tag_ne _ (by decide)) ?_
      intro c hc
      rw [List.mem_singleton] at hc
      subst hc
      exact GoodTree.text _
    · intro media index frames ci pd tag src attrs children n' htag h
      simp only [dispatchImg] at h
      rcases exceptBindOk h with ⟨a3, ha3, h2⟩
      rcases exceptBindOk h2 with ⟨cs, hcs, h3⟩
      cases h3
      exact GoodTree.elem (isDirectCssLinkTA_of_tag_ne _ htag) (ihl hcs)
    · intro media index frames ci pd tag src attrs children n' htag h
      simp only [dispatchIframe] at h
      have hgood : isDirectCssLinkTA media tag attrs = false :=
        isDirectCssLinkTA_of_tag_ne _ htag
      rcases hci : ci with _ | _ <;> rw [hci] at h <;>
        rcases hsrc : src with _ | s <;> rw [hsrc] at h <;>
        try simp only [] at h
      · exact ihk hgood h
      · exact ihk hgood h
      · exact ihk hgood h
      · by_cases hse : s = ""
        · rw [if_pos hse] at h
          exact ihk hgood h
        · rw [if_neg hse] at h
          try simp only [] at h
          cases hfr : lookupA frames
              ("<" ++ (⟨((jsSplitStr s.data "cid:".data).get? 1).getD
                "undefined".data⟩ : String) ++ ">") with
          | none =>
            rw [hfr] at h
            try simp only [] at h
            exact ihk hgood h
          | some frame =>
            rw [hfr] at h
            try simp only [] at h
            by_cases hft : frame.type = "text/html"
            · rw [if_pos hft] at h
              rcases exceptBindOk h with ⟨v, hv, hx⟩
              simp only [Bind.bind, Except.bind] at hx
              cases hfe : firstElemChild v with
              | none =>
                rw [hfe] at hx
                try simp only [] at hx
                cases hx
              | some d =>
                rw [hfe] at hx
                try simp only [] at hx
                cases htl : transformList fuel media index frames true pd children with
                | error e2 =>
                  rw [htl] at hx
                  try simp only [] at hx
                  cases hx
                | ok cs =>
                  rw [htl] at hx
                  try simp only [] at hx
                  cases hx
                  exact GoodTree.elem (isDirectCssLinkTA_of_tag_ne _ htag) (ihl htl)
            · rw [if_neg hft] at h
              exact ihk hgood h
    · intro media index frames ci pd tag attrs children n' htag h
      simp only [dispatchDefault] at h
      rcases exceptBindOk h with ⟨a2, ha2, h2⟩
      rcases exceptBindOk h2 with ⟨cs, hcs, h3⟩
      cases h3
      exact GoodTree.elem (isDirectCssLinkTA_of_tag_ne _ htag) (ihl hcs)
    · intro media index frames ci pd ns ns' h
      simp only [transformList] at h
      cases ns with
      | nil =>
        cases h
        intro c hc
        simp at hc
      | cons n t =>
        rcases exceptBindOk h with ⟨v, hv, hx⟩
        rcases exceptBindOk hx with ⟨w, hw, hy⟩
        cases hy
        intro c hc
        rcases List.mem_cons.mp hc with rfl | hmem
        · exact ihc hv
        · exact ihl hw c hmem

/-- The children of a node (for the document node of `convert`; a
non-element document has none). -/
def childNodes : Node → List Node
  | .elem _ _ cs => cs
  | _ => []

/-- The key `convert`'s `LINK` branch looks up: the raw `href` attribute,
with JS's string coercion of a missing attribute to `"null"`. -/
def hkeyOf : Option String → String
  | some h => h
  | none => "null"

/-- The archive of the C2 counterexample: an index page and a stylesheet
that is reachable from the page's relative `href` only through the
four-strategy resolver (`findAsset`), not as a literal `media` key. -/
def archC2 : Archive :=
  ⟨[], [("http://e.com/index.html", ⟨"7bit", "text/html", "x", none⟩),
        ("http://e.com/style.css", ⟨"7bit", "text/css", "body{}", none⟩)],
   "http://e.com/index.html"⟩

/-- The parsed index DOM of the C2 example: a stylesheet link with a
relative `href`. -/
def treeC2 : Node :=
  .elem "HTML" [] [.elem "BODY" []
    [.elem "LINK" [("rel", "stylesheet"), ("href", "style.css")] []]]

/-- Does a tree contain (to depth `fuel`) a `rel="stylesheet"` link whose
`href` resolves in `media` through `findAsset` — the claim's four-strategy
notion of resolution, with the missing-attribute `"null"` coercion — to a
`text/css` resource? -/
def containsResolvedCssLink (media : List (String × Asset)) (base : String)
    (fuel : Nat) (n : Node) : Bool :=
  match fuel, n with
  | 0, _ => false
  | fuel + 1, .elem tag attrs cs =>
    (tag = "LINK" &&
     (match lookupA attrs "rel" with
      | some r => r = "stylesheet"
      | none => false) &&
     (match findAsset media base (match lookupA attrs "href" with
        | some h => h
        | none => "null") with
      | some (_, e) => e.type = "text/css"
      | none => false)) ||
    cs.any (containsResolvedCssLink media base fuel)
  | _ + 1, .text _ => false
  | _ + 1, .comment _ => false
termination_by structural fuel

/-- The media table of the C2 witness: the stylesheet is keyed by the raw
relative `href` itself, so the `LINK` branch's direct lookup hits. -/
def mediaC2w : List (String × Asset) :=
  [("style.css", ⟨"7bit", "text/css", "body{}", none⟩)]

/-- Claim C2 (corrected): the `LINK` branch replaces a `rel="stylesheet"`
link by a `<style>` holding the CSS rewriter's output exactly when the
link's raw `href` attribute is *directly* a key of `archive.media` with
content type `text/css` (a missing `href` reads as the string `"null"`);
the four-strategy resolver of §4.B is never consulted there.  Consequently
a successful `convert` output contains no link whose `href` is directly
such a key (first conjunct, via `GoodTree`), while the second conjunct
characterises the replacement as the `processCSS` output.  The original
claim's resolver-based guarantee fails: see `claimC2_counterexample`. -/
theorem claimC2_direct_css_links_replaced :
    (∀ (fuel : Nat) (a : Archive) (ci : Bool) (pd : String → Node) (dom : Node),
      convert a ci pd fuel = .ok dom →
      ∀ c ∈ childNodes dom, GoodTree a.media c) ∧
    (∀ (fuel : Nat) (media : List (String × Asset)) (index : String)
      (frames : List (String × Asset)) (ci : Bool) (pd : String → Node)
      (tag : String) (href : Option String) (attrs : List (String × String))
      (children : List Node) (r : String) (entry : Asset) (n' : Node),
      lookupA attrs "rel" = some r →
      lookupA media (hkeyOf href) = some entry →
      (r = "stylesheet" && entry.type = "text/css") = true →
      dispatchLink (fuel + 1) media index frames ci pd tag href attrs children =
        .ok n' →
      ∃ s cs, processCSS fuel media (hkeyOf href) = .ok s ∧
        transformList fuel media index frames ci pd children = .ok cs ∧
        n' = .elem "STYLE" [("type", "text/css")] [.text (s.getD "null")]) := by
  constructor
  · intro fuel a ci pd dom h
    cases fuel with
    | zero =>
      have h0 : (Except.error "Recursion limit" : Except String Node) = .ok dom := h
      cases h0
    | succ fuel =>
      have h' : convertArch (fuel + 1) a ci pd = .ok dom := h
      simp only [convertArch] at h'
      cases hl : lookupA a.media a.index with
      | none => rw [hl] at h'; cases h'
      | some idx =>
        rw [hl] at h'
        try simp only [] at h'
        by_cases ht : idx.type = "text/html"
        · rw [if_pos ht] at h'
          cases hpd : pd (replaceCI (replaceCI idx.data "shadowrootmode="
              "data-shadowrootmode=") "shadowmode=" "data-shadowmode=") with
          | elem t as cs =>
            rw [hpd] at h'
            rcases exceptBindOk h' with ⟨cs', hcs, hok⟩
            cases hok
            intro c hc
            exact (transform_goodTree fuel).2.2.2.2.2.2.2.2.2 hcs c hc
          | text s =>
            rw [hpd] at h'
            cases h'
            intro c hc
            simp [childNodes] at hc
          | comment s =>
            rw [hpd] at h'
            cases h'
            intro c hc
            simp [childNodes] at hc
        · rw [if_neg ht] at h'; cases h'
  · intro fuel media index frames ci pd tag href attrs children r entry n'
      hm hk hsty h
    simp only [dispatchLink] at h
    cases href with
    | none =>
      simp only [hkeyOf] at hk
      try simp only [] at h
      rw [hm, hk] at h
      try simp only [] at h
      rw [if_pos hsty] at h
      rcases exceptBindOk h with ⟨s, hs, h2⟩
      rcases exceptBindOk h2 with ⟨u, hu, h3⟩
      cases h3
      exact ⟨s, u, hs, hu, rfl⟩
    | some h0 =>
      simp only [hkeyOf] at hk
      try simp only [] at h
      rw [hm, hk] at h
      try simp only [] at h
      rw [if_pos hsty] at h
      rcases exceptBindOk h with ⟨s, hs, h2⟩
      rcases exceptBindOk h2 with ⟨u, hu, h3⟩
      cases h3
      exact ⟨s, u, hs, hu, rfl⟩

/-- Claim C2's counterexample: `convert` succeeds on an archive and index
DOM whose stylesheet link's relative `href` resolves through the
four-strategy resolver to the archive's `text/css` asset, yet the link is
kept verbatim in the output — the output document does contain a
`<link rel="stylesheet">` whose `href` resolves in the archive, refuting
the claim's resolver-based replacement and its "consequently" clause. -/
theorem claimC2_counterexample :
    convert archC2 false (fun _ => treeC2) 100 = .ok treeC2 ∧
    containsResolvedCssLink archC2.media archC2.index 10 treeC2 = true := by
  constructor
  · rfl
  · rfl

/-- Both parts of the corrected C2 theorem hold at concrete inputs: the
counterexample's successful `convert` output is a good tree, and a link
whose raw `href` is directly a `text/css` media key is replaced by the
`<style>` element holding the rewriter's output. -/
theorem claimC2_direct_css_links_replaced_witness :
    (∀ c ∈ childNodes treeC2, GoodTree archC2.media c) ∧
    (∃ s cs, processCSS 8 mediaC2w (hkeyOf (some "style.css")) = .ok s ∧
      transformList 8 mediaC2w "style.css" [] false (fun _ => treeC2) [] =
        .ok cs ∧
      (Node.elem "STYLE" [("type", "text/css")] [.text "body{}"] : Node) =
        .elem "STYLE" [("type", "text/css")] [.text (s.getD "null")]) :=
  ⟨claimC2_direct_css_links_replaced.1 100 archC2 false (fun _ => treeC2)
      treeC2 rfl,
   claimC2_direct_css_links_replaced.2 8 mediaC2w "style.css" [] false
     (fun _ => treeC2) "LINK" (some "style.css")
     [("rel", "stylesheet"), ("href", "style.css")] [] "stylesheet"
     ⟨"7bit", "text/css", "body{}", none⟩
     (.elem "STYLE" [("type", "text/css")] [.text "body{}"]) rfl rfl
     (by decide) rfl⟩

/-! ## Claim C4: the four-strategy URL resolver -/

/-- Surrounding-quotes-only cleaning, the literal reading of claim C4's
"strips surrounding quotes from the reference" (spec-side definition for
comparison; the code strips every quote character wherever it occurs). -/
def stripSurroundingQuotes (r : String) : String :=
  match r.data with
  | [] => r
  | c :: rest =>
    if (c = '"' || c = '\'') && rest.getLast? = some c then
      ⟨rest.dropLast⟩
    else r

/-- The resolver exactly as claim C4 words it, parameterised by the
quote-cleaning step: try (1) the cleaned reference verbatim, (2) the
relative join against `base`, (3) origin-of-base concatenated with the
reference when it begins with `/`, (4) a filename-tail scan in insertion
order when the last path segment is longer than three characters; first
hit wins. -/
def findAssetSpecWith (clean : String → String) (media : List (String × Asset))
    (base reference : String) : Option (String × Asset) :=
  let cleanRef := clean reference
  let s1 := (lookupA media cleanRef).map (fun e => (cleanRef, e))
  let s2 :=
    let p := absoluteURL base cleanRef
    (lookupA media p).map (fun e => (p, e))
  let s3 :=
    if cleanRef.data.head? = some '/' then
      match getOrigin base with
      | some o => (lookupA media (o ++ cleanRef)).map (fun e => (o ++ cleanRef, e))
      | none => none
    else none
  let s4 :=
    let filename : String := ⟨((jsSplitChar cleanRef.data '/').getLast?).getD []⟩
    if filename.length > 3 then
      media.find? (fun kv =>
        ("/" ++ filename).data.isSuffixOf kv.1.data ||
        filename.data.isSuffixOf kv.1.data)
    else none
  ((s1.or s2).or s3).or s4

theorem filenameScan_eq (media : List (String × Asset)) (filename : String) :
    (if filename ≠ "" && filename.length > 3 then
      (media.find? (fun kv =>
        ("/" ++ filename).data.isSuffixOf kv.1.data ||
        filename.data.isSuffixOf kv.1.data)).map (fun kv => (kv.1, kv.2))
    else none) =
    (if filename.length > 3 then
      media.find? (fun kv =>
        ("/" ++ filename).data.isSuffixOf kv.1.data ||
        filename.data.isSuffixOf kv.1.data)
    else none) := by
  by_cases hf : filename.length > 3
  · have hne : filename ≠ "" := by
      intro hh
      rw [hh] at hf
      exact absurd hf (by decide)
    rw [if_pos (by simp [hne, hf]), if_pos hf]
    cases media.find? (fun kv =>
        ("/" ++ filename).data.isSuffixOf kv.1.data ||
        filename.data.isSuffixOf kv.1.data) with
    | none => rfl
    | some kv => rfl
  · rw [if_neg (by simp [hf]), if_neg hf]

/-- Claim C4 (corrected): the resolver first strips *every* quote
character from the reference (not only surrounding ones) and then behaves
exactly as the claim's four ordered strategies describe, the filename-tail
scan running when the last path segment is longer than three characters
and matching `/`+filename or filename suffixes in insertion order; `none`
models the all-fail case in which the caller leaves the reference
unchanged.  See `claimC4_counterexample` for the quote-stripping
difference. -/
theorem claimC4_four_strategy_resolver (media : List (String × Asset))
    (base reference : String) :
    findAsset media base reference =
      findAssetSpecWith stripQuotes media base reference := by
  simp only [findAsset, findAssetSpecWith]
  cases h1 : lookupA media (stripQuotes reference) with
  | some e => rfl
  | none =>
    cases h2 : lookupA media (absoluteURL base (stripQuotes reference)) with
    | some e => rfl
    | none =>
      by_cases hh : (stripQuotes reference).data.head? = some '/'
      · rw [if_pos hh]
        cases ho : getOrigin base with
        | none =>
          exact filenameScan_eq media
            ⟨((jsSplitChar (stripQuotes reference).data '/').getLast?).getD []⟩
        | some o =>
          try simp only []
          cases h3 : lookupA media (o ++ stripQuotes reference) with
          | some e => rfl
          | none =>
            exact filenameScan_eq media
              ⟨((jsSplitChar (stripQuotes reference).data '/').getLast?).getD []⟩
      · rw [if_neg hh]
        exact filenameScan_eq media
          ⟨((jsSplitChar (stripQuotes reference).data '/').getLast?).getD []⟩

/-- The media table of the C4 counterexample. -/
def mediaC4 : List (String × Asset) :=
  [("ab.png", ⟨"base64", "image/png", "QQ==", none⟩)]

/-- The reference of the C4 counterexample: a quote in the middle. -/
def refC4 : String := "a\"b.png"

/-- Claim C4's counterexample: on a reference carrying an interior quote
character, the code's resolver (which deletes every quote) scores a direct
hit, while the resolver built from the claim's "strips surrounding quotes"
wording resolves nothing — so the claim's description of the cleaning step
is wrong. -/
theorem claimC4_counterexample :
    findAsset mediaC4 "x" refC4 =
      some ("ab.png", ⟨"base64", "image/png", "QQ==", none⟩) ∧
    findAssetSpecWith stripSurroundingQuotes mediaC4 "x" refC4 = none := by
  exact ⟨rfl, rfl⟩

/-! ## Claim C6: the to-data-URI conversion -/

/-- Claim C6 (corrected): the to-data-URI conversion returns, for transfer
encoding `quoted-printable`, `data:<type>;utf8,` followed by the
`escape`-encoded quoted-printable-decoded data; for `base64`, the stored
data verbatim after `data:<type>;base64,`; for any *other* encoding it
base64-encodes the stored data only when every stored character is in the
Latin1 range — otherwise `Base64.encode` throws and the conversion fails
with its range error instead of returning a data URI (the case the
original claim omits; see `claimC6_counterexample`). -/
theorem claimC6_data_uri_conversion (a : Asset) :
    convertAssetToDataURI a =
      if a.encoding = "quoted-printable" then
        .ok ("data:" ++ a.type ++ ";utf8," ++ jsEscape (qpDecode a.data))
      else if a.encoding = "base64" then
        .ok ("data:" ++ a.type ++ ";base64," ++ a.data)
      else if a.data.data.all (fun c => c.toNat < 256) then
        .ok ("data:" ++ a.type ++ ";base64," ++
          (⟨b64EncodeChunks (a.data.data.map Char.toNat)⟩ : String))
      else
        .error
          "The string to be encoded contains characters outside of the Latin1 range." := by
  unfold convertAssetToDataURI b64Encode
  by_cases h1 : a.encoding = "quoted-printable"
  · rw [if_pos h1, if_pos h1]
  · rw [if_neg h1, if_neg h1]
    by_cases h2 : a.encoding = "base64"
    · rw [if_pos h2, if_pos h2]
    · rw [if_neg h2, if_neg h2]
      by_cases h3 : a.data.data.all (fun c => c.toNat < 256) = true
      · rw [if_pos h3, if_pos h3]
        rfl
      · rw [if_neg h3, if_neg h3]
        rfl

/-- Claim C6's counterexample: an asset with a non-`quoted-printable`,
non-`base64` encoding whose data contains a character outside Latin1 (the
euro sign) makes the conversion throw the `base-64` package's range error
rather than return `data:<type>;base64,<encoding of the data>`. -/
theorem claimC6_counterexample :
    convertAssetToDataURI ⟨"7bit", "text/plain", "€", none⟩ =
      .error
        "The string to be encoded contains characters outside of the Latin1 range." := by
  rfl

/-! ## Claim C10: the leading-`url(` exit of the CSS rewriter -/

theorem jsIndexOfFrom_zero_of_leading {s pat : List Char}
    (h : pat.isPrefixOf s) : jsIndexOfFrom s pat 0 = some 0 := by
  unfold jsIndexOfFrom idxAux
  rw [List.drop_zero, if_pos h]
  simp

/-- Claim C10 (corrected): when the CSS text begins with `url(` at offset
0, the rewriter's `while (index = css.indexOf('url(', index))` loop sees
the falsy match index 0 and exits at once, returning the text unchanged —
so not only the leading reference but *every* `url(` token of the text is
left unprocessed, however resolvable (the original claim's "later offsets
are processed normally" fails; see `claimC10_counterexample`). -/
theorem claimC10_leading_url_exits (fuel : Nat) (media : List (String × Asset))
    (base css : String) (h : "url(".data.isPrefixOf css.data) :
    replaceReferences (fuel + 1) media base css = .ok css := by
  unfold replaceReferences rrLoop
  rw [jsIndexOfFrom_zero_of_leading h]
  rfl

/-- Claim C10's hypothesis and conclusion hold at a concrete input. -/
theorem claimC10_leading_url_exits_witness :
    "url(".data.isPrefixOf "url(a.png)".data = true ∧
    replaceReferences 100 [] "http://e/x.css" "url(a.png)" =
      .ok "url(a.png)" :=
  ⟨by decide,
   claimC10_leading_url_exits 99 [] "http://e/x.css" "url(a.png)" (by decide)⟩

/-- The media table of the C10 counterexample: both referenced images
resolve relative to the base. -/
def mediaC10 : List (String × Asset) :=
  [("http://e/a.png", ⟨"7bit", "image/png", "A", none⟩),
   ("http://e/b.png", ⟨"7bit", "image/png", "B", none⟩)]

/-- Claim C10's counterexample: with the same archive and base, a CSS text
starting with `url(` keeps both of its resolvable references (the one at a
later offset included), while the same later reference *is* embedded when
the text does not start with `url(` — refuting "url( tokens at any later
offset are processed normally". -/
theorem claimC10_counterexample :
    replaceReferences 100 mediaC10 "http://e/x.css" "url(a.png) url(b.png)" =
      .ok "url(a.png) url(b.png)" ∧
    replaceReferences 100 mediaC10 "http://e/x.css" " url(b.png)" =
      .ok " url('data:image/png;base64,Qg==')" := by
  exact ⟨rfl, rfl⟩

/-! ## Claim C7: the rewriter's scan-resume position -/

/-- The CSS rewriting loop exactly as claim C7 words it (spec-side
definition for comparison): identical to `rrLoop` except that after a
substitution the scan resumes at the byte following the inserted data-URI
(`j + embedded.length` in the new text) instead of advancing by the length
of the original reference. -/
def rrLoopSpecResume (fuel : Nat) (media : List (String × Asset))
    (base css : String) (i : Nat) : Except String String :=
  match fuel with
  | 0 => .error "Loop limit"
  | fuel + 1 =>
    match jsIndexOfFrom css.data "url(".data i with
    | none => .ok css
    | some p =>
      if p = 0 then .ok css
      else
        let j := p + 4
        let closeIdx : Int := match jsIndexOfFrom css.data [')'] j with
          | some q => (q : Int)
          | none => -1
        let reference : String := ⟨jsSubstring css.data (j : Int) closeIdx⟩
        match findAsset media base reference with
        | none => rrLoopSpecResume fuel media base css (j + reference.length)
        | some (path, entry) => do
          let assetData ←
            if entry.type = "text/css" then
              (processCSS fuel media path).map (fun o => o.getD "null")
            else if entry.encoding = "base64" then b64Decode entry.data
            else .ok entry.data
          match b64Encode assetData with
          | .ok b =>
            let embedded := "'data:" ++ entry.type ++ ";base64," ++ b ++ "'"
            let css' : String :=
              ⟨css.data.take j ++ embedded.data ++ css.data.drop (j + reference.length)⟩
            rrLoopSpecResume fuel media base css' (j + embedded.length)
          | .error _ => rrLoopSpecResume fuel media base css (j + reference.length)
termination_by structural fuel

/-- Claim C7 (corrected): after a match at position `p > 0` the scan
cursor always advances to `p + 4 + reference.length` — the byte following
the *original* reference's span — whether the reference resolved and was
substituted, failed to base64-encode, or did not resolve.  Since the
inserted segment occupies positions `p + 4` up to `p + 4 +
embedded.length` of the new text and the embedded data URI is usually
longer than the reference, the resumed scan lands *inside* the freshly
inserted data-URI, which therefore can be re-scanned for `url(` tokens
(see `claimC7_counterexample`); the claim's "resumes at the byte following
the inserted data-URI" describes `rrLoopSpecResume`, not the code. -/
theorem claimC7_cursor_advances_by_reference (fuel : Nat)
    (media : List (String × Asset)) (base css : String) (i p q : Nat)
    (r : String)
    (hp : jsIndexOfFrom css.data "url(".data i = some p) (hp0 : ¬ p = 0)
    (hq : jsIndexOfFrom css.data [')'] (p + 4) = some q)
    (hr : r = ⟨jsSubstring css.data ((p + 4 : Nat) : Int) ((q : Nat) : Int)⟩) :
    (findAsset media base r = none →
      rrLoop (fuel + 1) media base css i =
        rrLoop fuel media base css (p + 4 + r.length)) ∧
    (∀ path entry assetData b,
      findAsset media base r = some (path, entry) →
      (if entry.type = "text/css" then
        (processCSS fuel media path).map (fun o => o.getD "null")
      else if entry.encoding = "base64" then b64Decode entry.data
      else .ok entry.data) = .ok assetData →
      b64Encode assetData = .ok b →
      rrLoop (fuel + 1) media base css i =
        rrLoop fuel media base
          ⟨css.data.take (p + 4) ++
            ("'data:" ++ entry.type ++ ";base64," ++ b ++ "'").data ++
            css.data.drop (p + 4 + r.length)⟩
          (p + 4 + r.length)) ∧
    (∀ path entry assetData e,
      findAsset media base r = some (path, entry) →
      (if entry.type = "text/css" then
        (processCSS fuel media path).map (fun o => o.getD "null")
      else if entry.encoding = "base64" then b64Decode entry.data
      else .ok entry.data) = .ok assetData →
      b64Encode assetData = .error e →
      rrLoop (fuel + 1) media base css i =
        rrLoop fuel media base css (p + 4 + r.length)) := by
  subst hr
  refine ⟨?_, ?_, ?_⟩
  · intro hfa
    conv_lhs => unfold rrLoop
    rw [hp]
    try simp only []
    rw [if_neg hp0]
    try simp only []
    rw [hq]
    try simp only []
    rw [hfa]
  · intro path entry assetData b hfa had hb
    conv_lhs => unfold rrLoop
    rw [hp]
    try simp only []
    rw [if_neg hp0]
    try simp only []
    rw [hq]
    try simp only []
    rw [hfa]
    try simp only []
    by_cases h1 : entry.type = "text/css"
    · rw [if_pos h1] at had ⊢
      rw [had]
      simp only [Bind.bind, Except.bind]
      rw [hb]
    · rw [if_neg h1] at had ⊢
      by_cases h2 : entry.encoding = "base64"
      · rw [if_pos h2] at had ⊢
        rw [had]
        simp only [Bind.bind, Except.bind]
        rw [hb]
      · rw [if_neg h2] at had ⊢
        simp only [Bind.bind, Except.bind]
        cases had
        rw [hb]
  · intro path entry assetData e hfa had hb
    conv_lhs => unfold rrLoop
    rw [hp]
    try simp only []
    rw [if_neg hp0]
    try simp only []
    rw [hq]
    try simp only []
    rw [hfa]
    try simp only []
    by_cases h1 : entry.type = "text/css"
    · rw [if_pos h1] at had ⊢
      rw [had]
      simp only [Bind.bind, Except.bind]
      rw [hb]
    · rw [if_neg h1] at had ⊢
      by_cases h2 : entry.encoding = "base64"
      · rw [if_pos h2] at had ⊢
        rw [had]
        simp only [Bind.bind, Except.bind]
        rw [hb]
      · rw [if_neg h2] at had ⊢
        simp only [Bind.bind, Except.bind]
        cases had
        rw [hb]

/-- The media table of the C7 counterexample: the first image's content
type itself contains a `url(` reference to the second image. -/
def mediaC7 : List (String × Asset) :=
  [("http://e/abcd.png", ⟨"7bit", "image/x;url(qrst.png)", "Z", none⟩),
   ("http://e/qrst.png", ⟨"7bit", "image/y", "Q", none⟩)]

/-- Claim C7's counterexample: the code's rewriter resumes inside the
freshly inserted data-URI and *does* re-scan it — here it substitutes the
`url(qrst.png)` occurring inside the first inserted URI, producing a
nested data URI — while the resume-after-the-inserted-URI loop the claim
describes leaves the inserted URI untouched. -/
theorem claimC7_counterexample :
    replaceReferences 100 mediaC7 "http://e/" " url(abcd.png)" =
      .ok " url('data:image/x;url('data:image/y;base64,UQ==');base64,Wg==')" ∧
    rrLoopSpecResume 100 mediaC7 "http://e/" " url(abcd.png)" 0 =
      .ok " url('data:image/x;url(qrst.png);base64,Wg==')" := by
  exact ⟨rfl, rfl⟩

/-- All three step equations of the corrected C7 theorem hold at concrete
inputs: an unresolved reference, a substituted one, and one whose data
fails to base64-encode all resume the scan at `p + 4 + reference.length`. -/
theorem claimC7_cursor_advances_by_reference_witness :
    (rrLoop 51 [] "b" " url(a.png)" 0 = rrLoop 50 [] "b" " url(a.png)" 10) ∧
    (rrLoop 51 mediaC10 "http://e/x.css" " url(b.png)" 0 =
      rrLoop 50 mediaC10 "http://e/x.css"
        ⟨" url(b.png)".data.take 5 ++
          ("'data:" ++ "image/png" ++ ";base64," ++ "Qg==" ++ "'").data ++
          " url(b.png)".data.drop 10⟩ 10) ∧
    (rrLoop 51 [("http://e/c.png", ⟨"7bit", "image/z", "€", none⟩)]
        "http://e/x.css" " url(c.png)" 0 =
      rrLoop 50 [("http://e/c.png", ⟨"7bit", "image/z", "€", none⟩)]
        "http://e/x.css" " url(c.png)" 10) :=
  ⟨(claimC7_cursor_advances_by_reference 50 [] "b" " url(a.png)" 0 1 10
      "a.png" rfl (by decide) rfl rfl).1 rfl,
   (claimC7_cursor_advances_by_reference 50 mediaC10 "http://e/x.css"
      " url(b.png)" 0 1 10 "b.png" rfl (by decide) rfl rfl).2.1
     "http://e/b.png" ⟨"7bit", "image/png", "B", none⟩ "B" "Qg==" rfl rfl rfl,
   (claimC7_cursor_advances_by_reference 50
      [("http://e/c.png", ⟨"7bit", "image/z", "€", none⟩)] "http://e/x.css"
      " url(c.png)" 0 1 10 "c.png" rfl (by decide) rfl rfl).2.2
     "http://e/c.png" ⟨"7bit", "image/z", "€", none⟩ "€"
     "The string to be encoded contains characters outside of the Latin1 range."
     rfl rfl rfl⟩

/-! ## Claim C8: malformed payloads -/

/-- A three-part input whose middle part's base64 payload `!!!!` is
malformed (characters outside the base64 alphabet). -/
def exC8 : String :=
  "Content-Type: multipart/related; boundary=\"BND\"\n\n" ++
  "--BND\n" ++
  "Content-Type: text/html\nContent-Transfer-Encoding: 7bit\nContent-Location: http://a/\n\n" ++
  "<html/>\n" ++
  "--BND\n" ++
  "Content-Type: image/png\nContent-Transfer-Encoding: base64\nContent-Location: http://a/bad.png\n\n" ++
  "!!!!\n" ++
  "--BND\n" ++
  "Content-Type: text/plain\nContent-Transfer-Encoding: 7bit\nContent-Location: http://a/after.txt\n\n" ++
  "later\n" ++
  "--BND--\n"

/-- What parsing `exC8` produces: the malformed part is retained with its
raw (non-empty) payload and the following part is still parsed. -/
def archC8 : Archive :=
  ⟨[], [("http://a/", ⟨"7bit", "text/html", "<html/>\n", none⟩),
        ("http://a/bad.png", ⟨"base64", "image/png", "!!!!", none⟩),
        ("http://a/after.txt", ⟨"7bit", "text/plain", "later\n", none⟩)],
   "http://a/"⟩

/-- A DOM provider whose document references the malformed asset from a
`<style>` sheet. -/
def pdC8css : String → Node := fun _ =>
  .elem "HTML" [] [.elem "STYLE" [] [.text " url(bad.png)"]]

/-- A DOM provider whose document references the malformed asset from an
`<img>` source. -/
def pdC8img : String → Node := fun _ =>
  .elem "HTML" [] [.elem "IMG" [("src", "http://a/bad.png")] []]

/-- Claim C8 (corrected): a malformed base64 payload does not abort
`parse` — the part is retained with its *raw, non-empty* payload (not an
empty body) because parsing never base64-decodes bodies, and later parts
are still parsed (first conjunct).  During conversion, however, the
behaviour depends on the referencing path: a CSS `url(...)` reference to
the part *aborts `convert`* with the base-64 decode error (second
conjunct), while an `<img src>` reference is rewritten to a data URI
embedding the malformed payload verbatim rather than being left as-is
(third conjunct).  (Quoted-printable decoding is total in the
`quoted-printable` package, so a "malformed" quoted-printable payload
never fails; only the base64 path can.) -/
theorem claimC8_malformed_payloads :
    (parse exC8 false (fun s => s) 2000 : Except String (ParseResult String)) =
      .ok (.archive archC8) ∧
    convert archC8 false pdC8css 100 =
      .error "Invalid character: the string to be decoded is not correctly encoded." ∧
    convert archC8 false pdC8img 100 =
      .ok (.elem "HTML" []
        [.elem "IMG" [("src", "data:image/png;base64,!!!!")] []]) := by
  refine ⟨?_, ?_, ?_⟩
  · rfl
  · rfl
  · rfl

/-- Claim C8's counterexample: the original claim's "retained with an
empty body" and "any reference to that part is left as-is during
conversion" both fail — the parsed body of the malformed part is the
non-empty raw payload, and a stylesheet referencing the part makes
`convert` abort with the decode error instead of leaving the reference
as-is. -/
theorem claimC8_counterexample :
    (lookupA archC8.media "http://a/bad.png").map Asset.data = some "!!!!" ∧
    (parse exC8 false (fun s => s) 2000 : Except String (ParseResult String)) =
      .ok (.archive archC8) ∧
    convert archC8 false pdC8css 100 =
      .error "Invalid character: the string to be decoded is not correctly encoded." := by
  refine ⟨?_, ?_, ?_⟩
  · rfl
  · rfl
  · rfl

/-! ## Claim C3: line-ending tolerance of the parser -/

theorem isPrefixOf_singleton (c x : Char) (rest : List Char) :
    [c].isPrefixOf (x :: rest) = (c == x) := by
  simp [List.isPrefixOf]

theorem idxAux_not_mem {c : Char} {t : List Char} (ht : c ∉ t) (pos : Nat) :
    idxAux [c] t pos = none := by
  induction t generalizing pos with
  | nil => rfl
  | cons x xs ih =>
    unfold idxAux
    have hcx : ¬ c = x := fun hh => ht (hh ▸ List.mem_cons_self x xs)
    have hpre : ([c].isPrefixOf (x :: xs)) = false := by
      rw [isPrefixOf_singleton]
      exact beq_false_of_ne hcx
    rw [hpre, if_neg (by simp)]
    exact ih (fun hm => ht (List.mem_cons_of_mem x hm)) (pos + 1)

theorem idxAux_append_some {c : Char} {l t : List Char} {pos m : Nat}
    (h : idxAux [c] l pos = some m) : idxAux [c] (l ++ t) pos = some m := by
  induction l generalizing pos with
  | nil =>
    have h0 : (none : Option Nat) = some m := h
    cases h0
  | cons x xs ih =>
    unfold idxAux at h ⊢
    by_cases hcx : ([c].isPrefixOf (x :: xs)) = true
    · rw [if_pos hcx] at h
      have hx : (c == x) = true := by
        rw [isPrefixOf_singleton] at hcx
        exact hcx
      have hpre2 : ([c].isPrefixOf (x :: (xs ++ t))) = true := by
        rw [isPrefixOf_singleton]
        exact hx
      simp only [List.cons_append]
      rw [if_pos hpre2]
      exact h
    · rw [if_neg hcx] at h
      have hpre2 : ¬ ([c].isPrefixOf (x :: (xs ++ t))) = true := by
        rw [isPrefixOf_singleton] at hcx ⊢
        exact hcx
      simp only [List.cons_append]
      rw [if_neg hpre2]
      exact ih (show idxAux [c] xs (pos + 1) = some m from h)

theorem idxAux_append_none {c : Char} {l t : List Char} {pos : Nat}
    (h : idxAux [c] l pos = none) (ht : c ∉ t) :
    idxAux [c] (l ++ t) pos = none := by
  induction l generalizing pos with
  | nil => exact idxAux_not_mem ht pos
  | cons x xs ih =>
    unfold idxAux at h ⊢
    by_cases hcx : ([c].isPrefixOf (x :: xs)) = true
    · rw [if_pos hcx] at h
      cases h
    · rw [if_neg hcx] at h
      have hpre2 : ¬ ([c].isPrefixOf (x :: (xs ++ t))) = true := by
        rw [isPrefixOf_singleton] at hcx ⊢
        exact hcx
      simp only [List.cons_append]
      rw [if_neg hpre2]
      exact ih (show idxAux [c] xs (pos + 1) = none from h)

theorem idxAux_some_lt {c : Char} {l : List Char} {pos m : Nat}
    (h : idxAux [c] l pos = some m) : m < pos + l.length := by
  induction l generalizing pos with
  | nil =>
    have h0 : (none : Option Nat) = some m := h
    cases h0
  | cons x xs ih =>
    unfold idxAux at h
    by_cases hcx : ([c].isPrefixOf (x :: xs)) = true
    · rw [if_pos hcx] at h
      cases h
      simp only [List.length_cons]
      omega
    · rw [if_neg hcx] at h
      have := ih (show idxAux [c] xs (pos + 1) = some m from h)
      simp only [List.length_cons]
      omega

theorem jsIndexOfFrom_single_append (c : Char) (l t : List Char) (ht : c ∉ t) :
    jsIndexOfFrom (l ++ t) [c] 0 = jsIndexOfFrom l [c] 0 := by
  unfold jsIndexOfFrom
  rw [List.drop_zero, List.drop_zero]
  cases hm : idxAux [c] l 0 with
  | some m =>
    rw [idxAux_append_some hm]
    simp
  | none =>
    rw [idxAux_append_none hm ht]
    simp

theorem jsIndexOfFrom_zero_some {c : Char} {l : List Char} {m : Nat}
    (h : jsIndexOfFrom l [c] 0 = some m) :
    idxAux [c] l 0 = some m ∧ m < l.length := by
  unfold jsIndexOfFrom at h
  rw [List.drop_zero] at h
  rcases Option.map_eq_some'.mp h with ⟨a, ha, hma⟩
  have ham : a = m := by
    simpa using hma
  subst ham
  refine ⟨ha, ?_⟩
  have := idxAux_some_lt ha
  simpa using this

/-- Appending JS whitespace does not change a JS `trim`. -/
theorem jsTrimL_append_spaces (l ws : List Char)
    (hws : ∀ c ∈ ws, isJsSpace c = true) :
    jsTrimL (l ++ ws) = jsTrimL l := by
  unfold jsTrimL
  rw [List.dropWhile_append]
  by_cases he : (l.dropWhile isJsSpace).isEmpty
  · rw [if_pos he]
    have hwsd : ws.dropWhile isJsSpace = [] :=
      List.dropWhile_eq_nil_iff.mpr hws
    have hld : l.dropWhile isJsSpace = [] := by
      simpa [List.isEmpty_iff] using he
    rw [hwsd, hld]
  · rw [if_neg he]
    rw [List.reverse_append, List.dropWhile_append]
    have hrev : ws.reverse.dropWhile isJsSpace = [] :=
      List.dropWhile_eq_nil_iff.mpr
        (fun x hx => hws x (List.mem_reverse.mp hx))
    rw [hrev]
    simp

/-- Claim C3 (corrected): per raw line `l ++ <ending>` (`getLine` keeps the
ending on the line), the parser's header handling is ending-insensitive —
`splitHeaders` trims each key, value and continuation, and the
header-or-blank test compares the JS-trimmed numeric coercion — and so is
`base64` body handling, whose lines are trimmed; but a body line of any
other non-`quoted-printable` encoding (such as `7bit`) is appended to the
part's data verbatim, so its trailing `\r` is *kept* and
`parse(CRLF version) ≠ parse(LF version)` in general (see
`claimC3_counterexample`); the claim's "a trailing CR before LF is
discarded from every line" fails for body lines. -/
theorem claimC3_line_ending_tolerance (l : List Char)
    (obj : List (String × String)) (key : Option String) :
    splitHeadersJs ⟨l ++ ['\r', '\n']⟩ obj key =
      splitHeadersJs ⟨l ++ ['\n']⟩ obj key ∧
    isHeaderLine ⟨l ++ ['\r', '\n']⟩ = isHeaderLine ⟨l ++ ['\n']⟩ ∧
    decodeLine (some "base64") ⟨l ++ ['\r', '\n']⟩ =
      decodeLine (some "base64") ⟨l ++ ['\n']⟩ ∧
    decodeLine (some "7bit") ⟨l ++ ['\r', '\n']⟩ ≠
      decodeLine (some "7bit") ⟨l ++ ['\n']⟩ := by
  have htrim : ∀ m : List Char, jsTrimL (m ++ ['\r', '\n']) = jsTrimL (m ++ ['\n']) := by
    intro m
    rw [jsTrimL_append_spaces m ['\r', '\n'] (by decide),
      jsTrimL_append_spaces m ['\n'] (by decide)]
  refine ⟨?_, ?_, ?_, ?_⟩
  · unfold splitHeadersJs
    have h1 : jsIndexOfFrom (String.data ⟨l ++ ['\r', '\n']⟩) [':'] 0 =
        jsIndexOfFrom l [':'] 0 :=
      jsIndexOfFrom_single_append ':' l ['\r', '\n'] (by decide)
    have h2 : jsIndexOfFrom (String.data ⟨l ++ ['\n']⟩) [':'] 0 =
        jsIndexOfFrom l [':'] 0 :=
      jsIndexOfFrom_single_append ':' l ['\n'] (by decide)
    rw [h1, h2]
    cases hm : jsIndexOfFrom l [':'] 0 with
    | none =>
      cases key with
      | none => rfl
      | some k =>
        have : jsTrim ⟨l ++ ['\r', '\n']⟩ = jsTrim ⟨l ++ ['\n']⟩ := by
          unfold jsTrim
          rw [show (⟨l ++ ['\r', '\n']⟩ : String).data = l ++ ['\r', '\n'] from rfl,
            show (⟨l ++ ['\n']⟩ : String).data = l ++ ['\n'] from rfl, htrim l]
        rw [this]
    | some m =>
      try simp only []
      obtain ⟨hidx, hlt⟩ := jsIndexOfFrom_zero_some hm
      have htake : ∀ t : List Char, (l ++ t).take m = l.take m := by
        intro t
        exact List.take_append_of_le_length (Nat.le_of_lt hlt)
      have hdrop : ∀ t : List Char, (l ++ t).drop (m + 1) = l.drop (m + 1) ++ t := by
        intro t
        exact List.drop_append_of_le_length hlt
      have hk : jsTrim ⟨(l ++ ['\r', '\n']).take m⟩ = jsTrim ⟨(l ++ ['\n']).take m⟩ := by
        rw [htake, htake]
      have hv : jsTrim ⟨(l ++ ['\r', '\n']).drop (m + 1)⟩ =
          jsTrim ⟨(l ++ ['\n']).drop (m + 1)⟩ := by
        unfold jsTrim
        rw [show (⟨(l ++ ['\r', '\n']).drop (m + 1)⟩ : String).data =
            (l ++ ['\r', '\n']).drop (m + 1) from rfl,
          show (⟨(l ++ ['\n']).drop (m + 1)⟩ : String).data =
            (l ++ ['\n']).drop (m + 1) from rfl,
          hdrop, hdrop, htrim]
      rw [hk, hv]
  · unfold isHeaderLine
    have hz : jsEqNumZero ⟨l ++ ['\r', '\n']⟩ = jsEqNumZero ⟨l ++ ['\n']⟩ := by
      unfold jsEqNumZero
      rw [show (⟨l ++ ['\r', '\n']⟩ : String).data = l ++ ['\r', '\n'] from rfl,
        show (⟨l ++ ['\n']⟩ : String).data = l ++ ['\n'] from rfl, htrim l]
    rw [hz]
    cases hl : l with
    | nil => decide
    | cons x xs =>
      have hne1 : (⟨x :: xs ++ ['\r', '\n']⟩ : String) ≠ "\n" := by
        intro hh
        have := congrArg (fun s => s.data.length) hh
        simp at this
      have hne2 : (⟨x :: xs ++ ['\n']⟩ : String) ≠ "\n" := by
        intro hh
        have := congrArg (fun s => s.data.length) hh
        simp at this
      rw [decide_eq_true hne1, decide_eq_true hne2]
  · unfold decodeLine jsTrim
    simp [htrim l]
  · unfold decodeLine
    try simp only []
    rw [if_neg (by decide : ¬ ("7bit" : String) = "quoted-printable"),
      if_neg (by decide : ¬ ("7bit" : String) = "base64")]
    intro hh
    have := congrArg (fun s => s.data.length) hh
    simp at this

/-- Normalise the line endings of an LF-only input to CRLF. -/
def toCRLF (s : String) : String :=
  ⟨s.data.foldr (fun c acc => if c = '\n' then '\r' :: '\n' :: acc else c :: acc) []⟩

/-- A one-part LF-only input whose body uses `7bit` transfer encoding. -/
def exC3 : String :=
  "Content-Type: multipart/related; boundary=\"BND\"\n\n" ++
  "--BND\n" ++
  "Content-Type: text/html\nContent-Transfer-Encoding: 7bit\nContent-Location: http://a/\n\n" ++
  "hello\n" ++
  "--BND--\n"

/-- Claim C3's counterexample: the same valid MHTML input parsed with CRLF
line endings and with LF line endings yields *different* archives — the
`7bit` body keeps its trailing `\r` (`"hello\r\n"` vs `"hello\n"`), so the
claimed equality `parse(CRLF form) = parse(LF form)` fails. -/
theorem claimC3_counterexample :
    (parse (toCRLF exC3) false (fun s => s) 2000 :
      Except String (ParseResult String)) =
      .ok (.archive ⟨[],
        [("http://a/", ⟨"7bit", "text/html", "hello\r\n", none⟩)],
        "http://a/"⟩) ∧
    (parse exC3 false (fun s => s) 2000 :
      Except String (ParseResult String)) =
      .ok (.archive ⟨[],
        [("http://a/", ⟨"7bit", "text/html", "hello\n", none⟩)],
        "http://a/"⟩) ∧
    (⟨[], [("http://a/", ⟨"7bit", "text/html", "hello\r\n", none⟩)],
      "http://a/"⟩ : Archive) ≠
      ⟨[], [("http://a/", ⟨"7bit", "text/html", "hello\n", none⟩)],
        "http://a/"⟩ := by
  refine ⟨?_, ?_, ?_⟩
  · rfl
  · rfl
  · decide

end Mhtml
